import Mathlib

/-!
# Verification of `firestore4kivy.py` (value codec, diff/merge engine, update controller)

Shallow embedding of `src/firestore4kivy/firestore4kivy.py`.

Modelling conventions, used throughout:

* Python values are represented by the inductive type `PyValue`.
  - Python `int` is arbitrary precision, modelled as `Int`.
  - Python `float` is modelled as `Rat`.  Every float computation the code
    performs on the paths exercised by the claims (the backoff sequence
    `1, 1.5, 1.5^2, ...` up to `1.5^11`, and values stored unchanged in
    `doubleValue` nodes) is exact in binary floating point, so the rational
    model agrees with the Python semantics there.
  - A Python `bytes` object is represented by its UTF-8 decoding
    (constructor `PyValue.bytes (s : String)`): the source only ever applies
    `.decode('utf-8')` / `.encode(errors='ignore')` to byte-sequences, and the
    claims restrict attention to byte-sequences with valid UTF-8 content, on
    which that pair of operations is the identity.
  - A `GeoPoint` object is represented by its stored `{latitude, longitude}`
    pair (both numbers, modelled as `Rat`); `TimeStamp` and `Reference`
    objects by their stored string.
  - Python `dict` is an insertion-ordered map, modelled as an association
    list `List (String × PyValue)` (the code stringifies keys on encode, and
    every key reaching the modelled code is a string).
  - `PyValue.tuple` models Python tuples (used by the positional
    replace/delete overlays and rejected by the codec); `PyValue.other`
    models the remaining types the codec rejects (`bytearray`, `memoryview`,
    `complex`, `range`, `frozenset`, `set`, other classes), identified by the
    type name used in the error message.  No code path modelled here inspects
    the contents of such a value.
* Fallible Python code (raising exceptions) is modelled with
  `Except String α`; an uncaught exception surfaces as `.error msg`.  The
  exact text of messages of *raised* exceptions (`IndexError`, `TypeError`,
  `KeyError`) is a modelling choice; the messages the source builds itself
  (`'ERROR: ...'` strings, the nested-list assertion) are reproduced verbatim.
* HTTP transport is modelled by caller-supplied oracles giving the response
  of each request (indexed by attempt number for `update`); JSON
  serialization of the request body (`json.dumps`) is not modelled — the
  request payload is kept as a `PyValue`.
-/

/-- A Python runtime value, as manipulated by `firestore4kivy.py`. -/
inductive PyValue where
  | none
  | bool (b : Bool)
  | int (n : Int)
  | float (q : Rat)
  | str (s : String)
  | bytes (s : String)
  | geoPoint (lat lon : Rat)
  | timeStamp (s : String)
  | reference (s : String)
  | list (xs : List PyValue)
  | dict (ps : List (String × PyValue))
  | tuple (xs : List PyValue)
  | other (typeName : String)

namespace PyValue

/-- Nested strong induction principle for `PyValue` (recursion through the
lists inside `list`, `dict` and `tuple` nodes). -/
theorem inductionNested {P : PyValue → Prop}
    (hnone : P .none)
    (hbool : ∀ b, P (.bool b))
    (hint : ∀ n, P (.int n))
    (hfloat : ∀ q, P (.float q))
    (hstr : ∀ s, P (.str s))
    (hbytes : ∀ s, P (.bytes s))
    (hgeo : ∀ la lo, P (.geoPoint la lo))
    (hts : ∀ s, P (.timeStamp s))
    (href : ∀ s, P (.reference s))
    (hlist : ∀ xs, (∀ x ∈ xs, P x) → P (.list xs))
    (hdict : ∀ ps, (∀ p ∈ ps, P p.2) → P (.dict ps))
    (htuple : ∀ xs, (∀ x ∈ xs, P x) → P (.tuple xs))
    (hother : ∀ t, P (.other t)) : ∀ v, P v := by
  have H : ∀ n (v : PyValue), sizeOf v < n → P v := by
    intro n
    induction n with
    | zero =>
      intro v hv
      exact absurd hv (Nat.not_lt_zero _)
    | succ n ih =>
      intro v hv
      cases v with
      | none => exact hnone
      | bool b => exact hbool b
      | int m => exact hint m
      | float q => exact hfloat q
      | str s => exact hstr s
      | bytes s => exact hbytes s
      | geoPoint la lo => exact hgeo la lo
      | timeStamp s => exact hts s
      | reference s => exact href s
      | list xs =>
        refine hlist xs (fun x hx => ih x ?_)
        have := List.sizeOf_lt_of_mem hx
        simp only [list.sizeOf_spec] at hv
        omega
      | dict ps =>
        refine hdict ps (fun p hp => ih p.2 ?_)
        have h1 := List.sizeOf_lt_of_mem hp
        have h2 : sizeOf p.2 < sizeOf p := by
          obtain ⟨a, b⟩ := p
          simp only [Prod.mk.sizeOf_spec]
          omega
        simp only [dict.sizeOf_spec] at hv
        omega
      | tuple xs =>
        refine htuple xs (fun x hx => ih x ?_)
        have := List.sizeOf_lt_of_mem hx
        simp only [tuple.sizeOf_spec] at hv
        omega
      | other t => exact hother t
  exact fun v => H (sizeOf v + 1) v (Nat.lt_succ_self _)

mutual

/-- Structural equality test on `PyValue` (Python `==` on the values the
claims compare; for `dict` it is insertion-order-sensitive, which is finer
than Python's order-insensitive dict equality, so proving equality in this
model implies Python equality). -/
def beq : PyValue → PyValue → Bool
  | .none, .none => true
  | .bool a, .bool b => a == b
  | .int a, .int b => a == b
  | .float a, .float b => a == b
  | .str a, .str b => a == b
  | .bytes a, .bytes b => a == b
  | .geoPoint a b, .geoPoint c d => a == c && b == d
  | .timeStamp a, .timeStamp b => a == b
  | .reference a, .reference b => a == b
  | .list xs, .list ys => beqList xs ys
  | .dict ps, .dict qs => beqPairs ps qs
  | .tuple xs, .tuple ys => beqList xs ys
  | .other a, .other b => a == b
  | _, _ => false

def beqList : List PyValue → List PyValue → Bool
  | [], [] => true
  | x :: xs, y :: ys => beq x y && beqList xs ys
  | _, _ => false

def beqPairs : List (String × PyValue) → List (String × PyValue) → Bool
  | [], [] => true
  | (k, v) :: ps, (l, w) :: qs => k == l && beq v w && beqPairs ps qs
  | _, _ => false

end

theorem beq_eq_true_iff : ∀ a b : PyValue, beq a b = true ↔ a = b := by
  have hlistAux : ∀ xs, (∀ x ∈ xs, ∀ b, beq x b = true ↔ x = b) →
      ∀ ys, beqList xs ys = true ↔ xs = ys := by
    intro xs hxs
    induction xs with
    | nil => intro ys; cases ys <;> simp [beqList]
    | cons x rest ih =>
      intro ys
      cases ys with
      | nil => simp [beqList]
      | cons y rest' =>
        simp only [beqList, Bool.and_eq_true, List.cons.injEq]
        rw [hxs x (List.mem_cons_self x rest) y,
          ih (fun z hz => hxs z (List.mem_cons_of_mem x hz)) rest']
  have hpairsAux : ∀ ps : List (String × PyValue),
      (∀ p ∈ ps, ∀ b, beq p.2 b = true ↔ p.2 = b) →
      ∀ qs, beqPairs ps qs = true ↔ ps = qs := by
    intro ps hps
    induction ps with
    | nil => intro qs; cases qs <;> simp [beqPairs]
    | cons p rest ih =>
      intro qs
      cases qs with
      | nil => simp [beqPairs]
      | cons q rest' =>
        obtain ⟨k, v⟩ := p
        obtain ⟨l, w⟩ := q
        simp only [beqPairs, Bool.and_eq_true, List.cons.injEq, Prod.mk.injEq,
          beq_iff_eq]
        rw [hps ⟨k, v⟩ (List.mem_cons_self _ rest) w,
          ih (fun z hz => hps z (List.mem_cons_of_mem _ hz)) rest']
  intro a
  induction a using inductionNested with
  | hnone => intro b; cases b <;> simp [beq]
  | hbool x => intro b; cases b <;> simp [beq]
  | hint x => intro b; cases b <;> simp [beq]
  | hfloat x => intro b; cases b <;> simp [beq]
  | hstr x => intro b; cases b <;> simp [beq]
  | hbytes x => intro b; cases b <;> simp [beq]
  | hgeo la lo => intro b; cases b <;> simp [beq]
  | hts x => intro b; cases b <;> simp [beq]
  | href x => intro b; cases b <;> simp [beq]
  | hlist xs hxs =>
    intro b
    cases b <;> simp [beq]
    exact hlistAux xs hxs _
  | hdict ps hps =>
    intro b
    cases b <;> simp [beq]
    exact hpairsAux ps hps _
  | htuple xs hxs =>
    intro b
    cases b <;> simp [beq]
    exact hlistAux xs hxs _
  | hother t => intro b; cases b <;> simp [beq]

instance : DecidableEq PyValue := fun a b =>
  decidable_of_iff (beq a b = true) (beq_eq_true_iff a b)

end PyValue

instance {ε α : Type} [DecidableEq ε] [DecidableEq α] : DecidableEq (Except ε α) :=
  fun a b =>
    match a, b with
    | .ok x, .ok y =>
      if h : x = y then .isTrue (by rw [h])
      else .isFalse (by intro hc; cases hc; exact h rfl)
    | .error x, .error y =>
      if h : x = y then .isTrue (by rw [h])
      else .isFalse (by intro hc; cases hc; exact h rfl)
    | .ok _, .error _ => .isFalse (by intro hc; cases hc)
    | .error _, .ok _ => .isFalse (by intro hc; cases hc)

/-! ## Decimal integer printing and parsing

The encoder stores integers as decimal text (`str(value)`) and the decoder
parses them back (`int(value)`).  We model `str` on integers and `int` on
strings by hand, so the round trip can be proved. -/

/-- Little-endian decimal digits of `n` (empty for `0`), with an explicit
structural fuel (`fuel ≥ n` suffices). -/
def natToDigitsAux : Nat → Nat → List Nat
  | 0, _ => []
  | _ + 1, 0 => []
  | fuel + 1, n + 1 => (n + 1) % 10 :: natToDigitsAux fuel ((n + 1) / 10)

/-- Little-endian decimal digits of `n`; empty for `0`. -/
def natDigits (n : Nat) : List Nat := natToDigitsAux n n

/-- One decimal digit to its character. -/
def digitToChar : Nat → Char
  | 0 => '0' | 1 => '1' | 2 => '2' | 3 => '3' | 4 => '4'
  | 5 => '5' | 6 => '6' | 7 => '7' | 8 => '8' | 9 => '9'
  | _ => '!'

/-- A character to its decimal digit, if it is one. -/
def charToDigit (c : Char) : Option Nat :=
  if '0' ≤ c && c ≤ '9' then some (c.toNat - '0'.toNat) else Option.none

/-- Characters of Python `str(n)` for a natural number. -/
def natToChars (n : Nat) : List Char :=
  if n = 0 then ['0'] else ((natDigits n).reverse).map digitToChar

/-- Python `str(n)` for an integer (the form the encoder stores in
`integerValue` nodes). -/
def intToString (n : Int) : String :=
  if n < 0 then String.mk ('-' :: natToChars (-n).toNat)
  else String.mk (natToChars n.toNat)

/-- Value of a little-endian digit list. -/
def digitsVal (l : List Nat) : Nat := l.foldr (fun d acc => d + 10 * acc) 0

/-- Big-endian value of a digit character list (non-digits count as 0; only
applied under an `allDigits` guard). -/
def charsValBE (cs : List Char) : Nat :=
  cs.foldl (fun a c => 10 * a + (charToDigit c).getD 0) 0

/-- All characters are decimal digits. -/
def allDigits (cs : List Char) : Bool := cs.all (fun c => (charToDigit c).isSome)

/-- Parse a nonempty all-digit character list as a natural number
(big-endian), else fail. -/
def parseNatChars (cs : List Char) : Except String Nat :=
  if cs.isEmpty || !allDigits cs then
    .error "ValueError: invalid literal for int() with base 10"
  else .ok (charsValBE cs)

/-- Python `int(s)` on a string (sign then decimal digits; the laxer inputs
`int` also accepts — whitespace, underscores, `+` — are not produced by the
encoder and are modelled as errors). -/
def pyIntOfString (s : String) : Except String Int :=
  match s.data with
  | '-' :: rest =>
    match parseNatChars rest with
    | .ok m => .ok (-(m : Int))
    | .error e => .error e
  | cs =>
    match parseNatChars cs with
    | .ok m => .ok ((m : Int))
    | .error e => .error e

theorem natToDigitsAux_digits_lt (fuel n : Nat) :
    ∀ d ∈ natToDigitsAux fuel n, d < 10 := by
  induction fuel generalizing n with
  | zero => intro d hd; simp [natToDigitsAux] at hd
  | succ fuel ih =>
    intro d hd
    cases n with
    | zero => simp [natToDigitsAux] at hd
    | succ m =>
      simp only [natToDigitsAux, List.mem_cons] at hd
      rcases hd with h | h
      · subst h; exact Nat.mod_lt _ (by norm_num)
      · exact ih _ _ h

theorem digitsVal_natToDigitsAux (fuel n : Nat) (h : n ≤ fuel) :
    digitsVal (natToDigitsAux fuel n) = n := by
  induction fuel generalizing n with
  | zero => interval_cases n; simp [natToDigitsAux, digitsVal]
  | succ fuel ih =>
    cases n with
    | zero => simp [natToDigitsAux, digitsVal]
    | succ m =>
      have hdiv : (m + 1) / 10 ≤ fuel := by
        have : (m + 1) / 10 < m + 1 := Nat.div_lt_self (Nat.succ_pos m) (by norm_num)
        omega
      simp only [natToDigitsAux, digitsVal, List.foldr_cons]
      have := ih ((m + 1) / 10) hdiv
      simp only [digitsVal] at this
      rw [this]
      omega

theorem digitsVal_natDigits (n : Nat) : digitsVal (natDigits n) = n :=
  digitsVal_natToDigitsAux n n le_rfl

theorem charToDigit_digitToChar {d : Nat} (h : d < 10) :
    charToDigit (digitToChar d) = some d := by
  interval_cases d <;> rfl

theorem charsValBE_digits (l : List Nat) (h : ∀ d ∈ l, d < 10) :
    charsValBE (l.reverse.map digitToChar) = digitsVal l := by
  induction l with
  | nil => rfl
  | cons d rest ih =>
    simp only [List.reverse_cons, List.map_append, List.map_cons, List.map_nil]
    simp only [charsValBE, List.foldl_append, List.foldl_cons, List.foldl_nil]
    have hd : d < 10 := h d (List.mem_cons_self d rest)
    rw [charToDigit_digitToChar hd]
    have := ih (fun x hx => h x (List.mem_cons_of_mem d hx))
    simp only [charsValBE] at this
    rw [this]
    simp only [digitsVal, List.foldr_cons, Option.getD_some]
    omega

theorem allDigits_natToChars (n : Nat) : allDigits (natToChars n) = true := by
  by_cases h0 : n = 0
  · subst h0; rfl
  · simp only [natToChars, if_neg h0, allDigits, List.all_eq_true]
    intro c hc
    simp only [List.mem_map] at hc
    obtain ⟨d, hd, hdc⟩ := hc
    have hdlt : d < 10 := natToDigitsAux_digits_lt _ _ d (by
      simpa [natDigits] using (List.mem_reverse.mp hd))
    subst hdc
    rw [charToDigit_digitToChar hdlt]
    rfl

theorem natToChars_ne_nil (n : Nat) : natToChars n ≠ [] := by
  by_cases h0 : n = 0
  · subst h0; simp [natToChars]
  · simp only [natToChars, if_neg h0, ne_eq, List.map_eq_nil_iff,
      List.reverse_eq_nil_iff]
    intro hnil
    have := digitsVal_natDigits n
    rw [hnil] at this
    simp [digitsVal] at this
    omega

theorem parseNatChars_natToChars (n : Nat) :
    parseNatChars (natToChars n) = .ok n := by
  have hne : (natToChars n).isEmpty = false := by
    simp [List.isEmpty_iff, natToChars_ne_nil]
  simp only [parseNatChars, hne, allDigits_natToChars, Bool.not_true,
    Bool.or_false, Bool.false_or, if_neg (by simp : ¬(false : Bool) = true)]
  by_cases h0 : n = 0
  · subst h0; rfl
  · simp only [natToChars, if_neg h0]
    rw [show (natDigits n).reverse.map digitToChar
          = (natDigits n).reverse.map digitToChar from rfl]
    rw [charsValBE_digits (natDigits n) (natToDigitsAux_digits_lt n n)]
    rw [digitsVal_natDigits]

theorem natToChars_no_minus (n : Nat) : ∀ c ∈ natToChars n, c ≠ '-' := by
  intro c hc
  by_cases h0 : n = 0
  · subst h0; simp [natToChars] at hc; subst hc; decide
  · simp only [natToChars, if_neg h0, List.mem_map] at hc
    obtain ⟨d, hd, hdc⟩ := hc
    have : d < 10 := natToDigitsAux_digits_lt _ _ d (by
      simpa [natDigits] using (List.mem_reverse.mp hd))
    subst hdc
    interval_cases d <;> decide

theorem pyIntOfString_intToString (n : Int) :
    pyIntOfString (intToString n) = .ok n := by
  by_cases hneg : n < 0
  · simp only [intToString, if_pos hneg, pyIntOfString, parseNatChars_natToChars,
      Except.ok.injEq]
    omega
  · simp only [intToString, if_neg hneg, pyIntOfString]
    have hchars := natToChars_no_minus n.toNat
    split
    · rename_i rest heq
      exact absurd rfl (hchars '-' (by rw [heq]; exact List.mem_cons_self _ _))
    · simp only [parseNatChars_natToChars, Except.ok.injEq]
      omega

/-! ## Python runtime helpers used by the codec and merge engine -/

/-- Is the value a Python `list`? -/
def PyValue.isList : PyValue → Bool
  | .list _ => true
  | _ => false

/-- Is the value a Python `dict`? -/
def PyValue.isDict : PyValue → Bool
  | .dict _ => true
  | _ => false

/-- Is the value a Python `tuple`? -/
def PyValue.isTuple : PyValue → Bool
  | .tuple _ => true
  | _ => false

/-- Python truthiness (`bool(value)` / `if value:`). The truthiness of an
`other` value is never observed by the modelled code (in `dict_pop` the
conjunction `value and isinstance(...)` is false for it either way). -/
def pyTruthy : PyValue → Bool
  | .none => false
  | .bool b => b
  | .int n => n != 0
  | .float q => q != 0
  | .str s => s != ""
  | .bytes s => s != ""
  | .list xs => !xs.isEmpty
  | .dict ps => !ps.isEmpty
  | .tuple xs => !xs.isEmpty
  | .geoPoint _ _ => true
  | .timeStamp _ => true
  | .reference _ => true
  | .other _ => true

/-- Numeric view of a value: Python treats `bool` as an `int` subtype, so
`isinstance(x, int)` is true for booleans. -/
def pyAsNum : PyValue → Option Rat
  | .int n => some (n : Rat)
  | .bool b => some (if b then 1 else 0)
  | .float q => some q
  | _ => Option.none

/-- `GeoPoint.__init__(latitude, longitude)`: non-numeric arguments default
to `0`; numeric ones are clamped by `min(max(·,-90),90)` and
`min(max(·,-180),180)`. Returns the stored `(latitude, longitude)` pair. -/
def geoPointInit (latitude longitude : PyValue) : Rat × Rat :=
  let la := (pyAsNum latitude).getD 0
  let lo := (pyAsNum longitude).getD 0
  (min (max la (-90)) 90, min (max lo (-180)) 180)

/-- `TimeStamp.__init__(value)`: stores the string, or the default last
millenium date for non-string input. -/
def timeStampInit : PyValue → String
  | .str s => s
  | _ => "2000-01-01T00:00:00Z"

/-- Python `int(value)` on a scalar (used by the decoder's `integerValue`
branch). `int` of a float truncates toward zero. -/
def pyToInt : PyValue → Except String Int
  | .bool b => .ok (if b then 1 else 0)
  | .int n => .ok n
  | .float q => .ok (if 0 ≤ q then q.floor else -((-q).floor))
  | .str s => pyIntOfString s
  | _ => .error "TypeError: int() argument must be a string or a number"

/-- Python `float(value)` on a scalar (used by the decoder's `doubleValue`
branch).  `float` of a numeric literal string succeeds in Python; the encoder
never stores a string under `doubleValue`, and that case is modelled as an
error. -/
def pyToFloat : PyValue → Except String Rat
  | .bool b => .ok (if b then 1 else 0)
  | .int n => .ok (n : Rat)
  | .float q => .ok q
  | _ => .error "TypeError: float() argument must be a string or a number"

/-- Python `str(value)` on scalars.  Exact for strings — the only case the
encoder produces under the `stringValue`/`timestampValue`/`referenceValue`
tags; best-effort renderings elsewhere (no claim depends on them). -/
def pyStrScalar : PyValue → String
  | .str s => s
  | .none => "None"
  | .bool b => if b then "True" else "False"
  | .int n => intToString n
  | .float _ => "<float repr not modelled>"
  | .bytes s => "b'" ++ s ++ "'"
  | _ => "<object repr not modelled>"

/-- `value.encode(errors='ignore')` wrapped in `bytes(...)` (the decoder's
`bytesValue` branch): only strings have `.encode`; re-encoding a string
obtained from UTF-8 decoding restores the original bytes, which in our
representation is the identity. -/
def pyStrEncode : PyValue → Except String PyValue
  | .str s => .ok (.bytes s)
  | _ => .error "AttributeError: object has no attribute encode"

/-! ## The value codec: `dict_to_firestore` (encode) -/

/-- The message of the `assert False` rejecting nested lists. -/
def nestedListMsg : String := "ERROR: Nested lists are not available in Firestore."

/-- The message of the `assert False` rejecting unsupported value types. -/
def unsupportedTypeMsg (ref typeName : String) : String :=
  "ERROR: " ++ ref ++ "value type <class '" ++ typeName ++ "'> is not available in Firestore."

mutual

/-- The inner `map(ref, value)` helper of `Firestore.dict_to_firestore`:
encodes one native value to one wire node.  `parent_is_list` is the flag of
the enclosing `dict_to_firestore` call.  The `assert False` failures are
modelled as errors (an `AssertionError` propagating out). -/
def fsMapVal (ref : String) (v : PyValue) (parent_is_list : Bool) :
    Except String PyValue :=
  match v with
  | .none => .ok (.dict [("nullValue", .none)])
  | .bool b => .ok (.dict [("booleanValue", .bool b)])
  | .int n => .ok (.dict [("integerValue", .str (intToString n))])
  | .float q => .ok (.dict [("doubleValue", .float q)])
  | .str s => .ok (.dict [("stringValue", .str s)])
  | .bytes s => .ok (.dict [("bytesValue", .str s)])
  | .geoPoint la lo => .ok (.dict [("geoPointValue",
      .dict [("latitude", .float la), ("longitude", .float lo)])])
  | .timeStamp s => .ok (.dict [("timestampValue", .str s)])
  | .reference s => .ok (.dict [("referenceValue", .str s)])
  | .list xs =>
    if parent_is_list then .error nestedListMsg
    else
      match fsElems xs true 0 with
      | .ok ws => .ok (.dict [("arrayValue", .dict [("values", .list ws)])])
      | .error e => .error e
  | .dict ps =>
    match fsFields ps false with
    | .ok ws => .ok (.dict [("mapValue", .dict [("fields", .dict ws)])])
    | .error e => .error e
  | .tuple _ => .error (unsupportedTypeMsg ref "tuple")
  | .other t => .error (unsupportedTypeMsg ref t)

/-- The key loop of `dict_to_firestore` on a dict (builds `new_dict`). -/
def fsFields (ps : List (String × PyValue)) (parent_is_list : Bool) :
    Except String (List (String × PyValue)) :=
  match ps with
  | [] => .ok []
  | (k, v) :: rest =>
    match fsMapVal ("Key \"" ++ k ++ "\" ") v parent_is_list with
    | .error e => .error e
    | .ok w =>
      match fsFields rest parent_is_list with
      | .error e => .error e
      | .ok ws => .ok ((k, w) :: ws)

/-- The element loop of `dict_to_firestore` on a list (builds `new_array`). -/
def fsElems (xs : List PyValue) (parent_is_list : Bool) (i : Nat) :
    Except String (List PyValue) :=
  match xs with
  | [] => .ok []
  | x :: rest =>
    match fsMapVal ("List Index [" ++ intToString i ++ "] ") x parent_is_list with
    | .error e => .error e
    | .ok w =>
      match fsElems rest parent_is_list (i + 1) with
      | .error e => .error e
      | .ok ws => .ok (w :: ws)

end

/-- `Firestore.dict_to_firestore(data, parent_is_list)`: encodes a dict into
the wire `fields` mapping, or a list into a list of wire nodes; on any other
input the Python function falls off the end and returns `None`. -/
def dict_to_firestore (data : PyValue) (parent_is_list : Bool) :
    Except String PyValue :=
  match data with
  | .dict ps =>
    match fsFields ps parent_is_list with
    | .ok ws => .ok (.dict ws)
    | .error e => .error e
  | .list xs =>
    match fsElems xs parent_is_list 0 with
    | .ok ws => .ok (.list ws)
    | .error e => .error e
  | _ => .ok .none

/-! ## The value codec: `dict_from_firestore` (decode) -/

/-- The scalar-tag chain of the decoder's key loop (`is_scalar_value(value)`
was true): `some result` when one of the eight scalar tags fires, `none`
when the key is unknown and the loop silently skips it. -/
def dffScalar (key : String) (value : PyValue) : Option (Except String PyValue) :=
  if key = "nullValue" then some (.ok .none)
  else if key = "stringValue" then some (.ok (.str (pyStrScalar value)))
  else if key = "booleanValue" then some (.ok (.bool (pyTruthy value)))
  else if key = "integerValue" then
    some (match pyToInt value with
      | .ok n => .ok (.int n)
      | .error e => .error e)
  else if key = "doubleValue" then
    some (match pyToFloat value with
      | .ok q => .ok (.float q)
      | .error e => .error e)
  else if key = "bytesValue" then
    some (match pyStrEncode value with
      | .ok b => .ok b
      | .error e => .error e)
  else if key = "timestampValue" then
    some (.ok (.timeStamp (timeStampInit (.str (pyStrScalar value)))))
  else if key = "referenceValue" then
    some (.ok (.reference (pyStrScalar value)))
  else Option.none

/-- Outcome of one iteration of the decoder's key loop, as decided by the
`elif` chain on `key` and the shape of `value`. -/
inductive DffPlan where
  | ret (r : Except String PyValue)
  | skip
  | decodeMap (f : PyValue)
  | decodeArray (items : List PyValue)
  | fall

/-- The dispatch of the decoder's key loop: which `elif` branch fires for a
given key/value pair.  `ret` ends the whole call with that result, `skip`
silently ignores the key (unknown scalar tag), `decodeMap f` is the
`mapValue`/`fields` branch (return `dict_from_firestore(value['fields'])`),
`decodeArray items` is the `arrayValue`/`values` branch, and `fall` is the
final `else`: `new_dict[key] = self.dict_from_firestore(value)`.  The shape
guards mirror `is_dict_value`: a branch only fires when the node's value has
exactly the expected key set (Python dicts carry no duplicate keys, so for an
n-key check a length-n exact match is the faithful reading). -/
def dffPlan (key : String) (value : PyValue) : DffPlan :=
  if !value.isDict && !value.isList then
    -- is_scalar_value(value): the inner scalar-tag chain
    match dffScalar key value with
    | some r => .ret r
    | Option.none => .skip
  else if key = "mapValue" then
    match value with
    | .dict [(k1, f)] => if k1 = "fields" then .decodeMap f else .fall
    | _ => .fall
  else if key = "arrayValue" then
    match value with
    | .dict [(k1, vs)] =>
      if k1 = "values" then
        match vs with
        | .list items => .decodeArray items
        | _ =>
          -- `for v in value['values']` over a non-list: never produced by
          -- the encoder, modelled as an error
          .ret (.error "TypeError: arrayValue values is not iterable as a list")
      else .fall
    | _ => .fall
  else if key = "geoPointValue" then
    match value with
    | .dict [(k1, v1), (k2, v2)] =>
      if k1 = "latitude" && k2 = "longitude" then
        .ret (.ok (.geoPoint (geoPointInit v1 v2).1 (geoPointInit v1 v2).2))
      else if k1 = "longitude" && k2 = "latitude" then
        .ret (.ok (.geoPoint (geoPointInit v2 v1).1 (geoPointInit v2 v1).2))
      else .fall
    | _ => .fall
  else .fall

theorem dffPlan_decodeMap_size (key : String) (value f : PyValue)
    (h : dffPlan key value = .decodeMap f) : sizeOf f < sizeOf value := by
  unfold dffPlan at h
  all_goals try split at h
  all_goals try simp_all
  all_goals try split at h
  all_goals try simp_all
  all_goals try split at h
  all_goals try simp_all
  all_goals try split at h
  all_goals try simp_all
  all_goals try split at h
  all_goals try simp_all
  all_goals try split at h
  all_goals try simp_all
  all_goals try split at h
  all_goals try simp_all
  all_goals try split at h
  all_goals try simp_all
  all_goals omega

theorem dffPlan_decodeArray_size (key : String) (value : PyValue)
    (items : List PyValue) (h : dffPlan key value = .decodeArray items) :
    sizeOf items < sizeOf value := by
  unfold dffPlan at h
  all_goals try split at h
  all_goals try simp_all
  all_goals try split at h
  all_goals try simp_all
  all_goals try split at h
  all_goals try simp_all
  all_goals try split at h
  all_goals try simp_all
  all_goals try split at h
  all_goals try simp_all
  all_goals try split at h
  all_goals try simp_all
  all_goals try split at h
  all_goals try simp_all
  all_goals try split at h
  all_goals try simp_all
  all_goals omega

mutual

/-- `Firestore.dict_from_firestore(data)`: decodes a wire value.  On
non-dict input the Python function skips its loop and returns the
initial empty `new_dict`. -/
def dict_from_firestore (data : PyValue) : Except String PyValue :=
  match data with
  | .dict ps => dffFields ps []
  | _ => .ok (.dict [])
termination_by sizeOf data
decreasing_by all_goals (simp_wf <;> omega)

/-- The key loop of `dict_from_firestore`, carrying the accumulated
`new_dict`. -/
def dffFields (ps : List (String × PyValue)) (acc : List (String × PyValue)) :
    Except String PyValue :=
  match ps with
  | [] => .ok (.dict acc)
  | (key, value) :: rest =>
    match hplan : dffPlan key value with
    | .ret r => r
    | .skip => dffFields rest acc
    | .decodeMap f => dict_from_firestore f
    | .decodeArray items =>
      match dffItems items with
      | .ok ds => .ok (.list ds)
      | .error e => .error e
    | .fall =>
      match dict_from_firestore value with
      | .ok d => dffFields rest (acc ++ [(key, d)])
      | .error e => .error e
termination_by sizeOf ps
decreasing_by
  all_goals simp_wf
  all_goals
    first
      | omega
      | (have hlt := dffPlan_decodeMap_size _ _ _ hplan; omega)
      | (have hlt := dffPlan_decodeArray_size _ _ _ hplan; omega)

/-- The element loop of the decoder's `arrayValue` branch. -/
def dffItems (items : List PyValue) : Except String (List PyValue) :=
  match items with
  | [] => .ok []
  | x :: rest =>
    match dict_from_firestore x with
    | .ok d =>
      match dffItems rest with
      | .ok ds => .ok (d :: ds)
      | .error e => .error e
    | .error e => .error e
termination_by sizeOf items
decreasing_by all_goals (simp_wf <;> omega)

end

/-! ## `dict_size` -/

mutual

/-- `Firestore.dict_size`: recursive count of scalar leaf values (anything
that is neither a dict nor a list counts as one leaf). -/
def dict_size : PyValue → Nat
  | .dict ps => dictSizePairs ps
  | .list xs => dictSizeList xs
  | _ => 1

def dictSizePairs : List (String × PyValue) → Nat
  | [] => 0
  | (_, v) :: rest => dict_size v + dictSizePairs rest

def dictSizeList : List PyValue → Nat
  | [] => 0
  | x :: rest => dict_size x + dictSizeList rest

end

/-! ## Python list/dict primitives used by the merge engine -/

/-- `index < len(existing)` with `index` an arbitrary Python value: numeric
comparison for `bool`/`int`/`float`, `TypeError` otherwise. -/
def pyLtLen (index : PyValue) (n : Nat) : Except String Bool :=
  match pyAsNum index with
  | some q => .ok (decide (q < (n : Rat)))
  | Option.none => .error "TypeError: '<' not supported between instances"

/-- `index == len(existing)` (Python `==` never raises; numeric values
compare numerically across int/float/bool, everything else is unequal to an
integer). -/
def pyEqLen (index : PyValue) (n : Nat) : Bool :=
  match pyAsNum index with
  | some q => decide (q = (n : Rat))
  | Option.none => false

/-- Subscripting a list requires an integer (or bool) index in Python;
floats and others raise `TypeError`. -/
def pyListIndexInt : PyValue → Except String Int
  | .int i => .ok i
  | .bool b => .ok (if b then 1 else 0)
  | _ => .error "TypeError: list indices must be integers or slices"

/-- `existing[index] = value` on a list: negative indices wrap; out of range
raises `IndexError`. -/
def pyListAssign (xs : List PyValue) (index value : PyValue) :
    Except String (List PyValue) :=
  match pyListIndexInt index with
  | .error e => .error e
  | .ok i =>
    let j : Int := if i < 0 then i + xs.length else i
    if 0 ≤ j ∧ j < (xs.length : Int) then .ok (xs.set j.toNat value)
    else .error "IndexError: list assignment index out of range"

/-- `existing[index]` read on a list. -/
def pyListGet (xs : List PyValue) (index : PyValue) : Except String PyValue :=
  match pyListIndexInt index with
  | .error e => .error e
  | .ok i =>
    let j : Int := if i < 0 then i + xs.length else i
    if 0 ≤ j ∧ j < (xs.length : Int) then .ok (xs.getD j.toNat .none)
    else .error "IndexError: list index out of range"

/-- `existing.pop(index)` on a list. -/
def pyListPop (xs : List PyValue) (index : PyValue) :
    Except String (List PyValue) :=
  match pyListIndexInt index with
  | .error e => .error e
  | .ok i =>
    let j : Int := if i < 0 then i + xs.length else i
    if 0 ≤ j ∧ j < (xs.length : Int) then .ok (xs.eraseIdx j.toNat)
    else .error "IndexError: pop index out of range"

/-- `key in existing` for a dict. -/
def dictHasKey (ps : List (String × PyValue)) (k : String) : Bool :=
  ps.any (fun p => p.1 == k)

/-- `existing[key]` for a dict (Python dicts are duplicate-free, so first
match is the entry). -/
def dictGet (ps : List (String × PyValue)) (k : String) : PyValue :=
  match ps.find? (fun p => p.1 == k) with
  | some p => p.2
  | Option.none => .none

/-- `existing[key] = value`: overwrite in place (keeping the key's
insertion position) when present, else append at the end. -/
def dictSet (ps : List (String × PyValue)) (k : String) (v : PyValue) :
    List (String × PyValue) :=
  if dictHasKey ps k then ps.map (fun p => if p.1 == k then (p.1, v) else p)
  else ps ++ [(k, v)]

/-- `existing.pop(key)` for a dict. -/
def dictRemove (ps : List (String × PyValue)) (k : String) :
    List (String × PyValue) :=
  ps.filter (fun p => !(p.1 == k))

/-! ## `dict_replace` -/

/-- The list-branch loop of `dict_replace` (positional edits; no recursion).
Threads the mutated list and the `tuples` flag. -/
def drList (exl : List PyValue) (rel : List PyValue) (tuples : Bool) :
    Except String (List PyValue × Bool) :=
  match rel with
  | [] => .ok (exl, tuples)
  | ele :: rest =>
    match ele with
    | .tuple items =>
      match items with
      | index :: value :: _ =>
        match pyLtLen index exl.length with
        | .error e => .error e
        | .ok true =>
          match pyListAssign exl index value with
          | .ok exl' => drList exl' rest true
          | .error e => .error e
        | .ok false =>
          if pyEqLen index exl.length then drList (exl ++ [value]) rest true
          else drList exl rest true
      | _ => .error "IndexError: tuple index out of range"
    | _ => drList exl rest tuples

mutual

/-- `Firestore.dict_replace(existing, replace)`: recursively assigns the
`replace` overlay into `existing`.  Returns the post-state of `existing`
(the in-place mutation) together with the Python return value `tuples`
(true only when this direct call took the list/list branch and some overlay
element was a tuple — recursive calls' flags are used locally and
discarded). -/
def dict_replace (existing replace : PyValue) : Except String (PyValue × Bool) :=
  match replace, existing with
  | .dict rps, .dict eps =>
    match drFold eps rps with
    | .ok eps' => .ok (.dict eps', false)
    | .error e => .error e
  | .list rel, .list exl =>
    match drList exl rel false with
    | .ok (exl', t) => .ok (.list exl', t)
    | .error e => .error e
  | _, _ => .ok (existing, false)

/-- The dict-branch loop of `dict_replace`. -/
def drFold (eps : List (String × PyValue)) (rps : List (String × PyValue)) :
    Except String (List (String × PyValue)) :=
  match rps with
  | [] => .ok eps
  | (k, v) :: rest =>
    if dictHasKey eps k then
      match v with
      | .dict vps =>
        -- `self.dict_replace(existing[key], value)` (return value discarded;
        -- mutates existing[key] in place — a no-op when it is not a dict)
        match dict_replace (dictGet eps k) (.dict vps) with
        | .ok (sub, _) => drFold (dictSet eps k sub) rest
        | .error e => .error e
      | .list vl =>
        -- `if not self.dict_replace(existing[key], value): existing[key] = value`
        match dict_replace (dictGet eps k) (.list vl) with
        | .ok (sub, t) =>
          if t then drFold (dictSet eps k sub) rest
          else drFold (dictSet eps k (.list vl)) rest
        | .error e => .error e
      | v' => drFold (dictSet eps k v') rest
    else drFold (dictSet eps k v) rest

end

/-! ## `dict_pop` -/

/-- Pair each delete-spec tuple with its sort key `x[0]` (`sorted(removes,
key=lambda x: x[0], reverse=True)` evaluates the key of every element).
Python's rich comparison during sorting is modelled for numeric keys — the
only kind the positional-delete interface is meaningful for; mixed or
non-numeric keys raise `TypeError` during Python's sort as well (except the
all-string corner, which this model also reports as an error). -/
def dpKeyed (rel : List PyValue) : Except String (List (Rat × PyValue)) :=
  match rel with
  | [] => .ok []
  | ele :: rest =>
    match ele with
    | .tuple (i :: _) =>
      match pyAsNum i with
      | some q =>
        match dpKeyed rest with
        | .ok ps => .ok ((q, ele) :: ps)
        | .error e => .error e
      | Option.none => .error "TypeError: '<' not supported between instances"
    | .tuple [] => .error "IndexError: tuple index out of range"
    | _ => .error "TypeError: sort key"

/-- Stable insertion into a descending-sorted list: walk past strictly
larger keys, so equal keys keep their original relative order (Python's
`sorted` is stable). -/
def insertDesc (p : Rat × PyValue) : List (Rat × PyValue) → List (Rat × PyValue)
  | [] => [p]
  | q :: rest => if p.1 < q.1 then q :: insertDesc p rest else p :: q :: rest

/-- Stable descending sort by key. -/
def sortDescByKey : List (Rat × PyValue) → List (Rat × PyValue)
  | [] => []
  | x :: rest => insertDesc x (sortDescByKey rest)

mutual

/-- `Firestore.dict_pop(existing, removes)`: recursively removes the
`removes` overlay from `existing`; returns the post-state of `existing`
(the in-place mutation; callers discard the Python return value, and at the
early `return []` for a malformed sequence delete-spec the post-state is
the unchanged `existing`).  `fuel` bounds the recursion depth (the nesting
depth of `removes`, which strictly shrinks at every recursive call); the
entry point `dict_pop` supplies more than enough. -/
def dictPopFuel : Nat → PyValue → PyValue → Except String PyValue
  | 0, _, _ => .error "model recursion fuel exhausted (unreachable from the entry point)"
  | fuel + 1, existing, removes =>
    match removes, existing with
    | .dict rps, .dict eps =>
      match dpFold fuel eps rps with
      | .ok eps' => .ok (.dict eps')
      | .error e => .error e
    | .list rel, .list exl =>
      if rel.all PyValue.isTuple then
        match dpKeyed rel with
        | .ok pairs =>
          match dpList fuel exl ((sortDescByKey pairs).map Prod.snd) with
          | .ok exl' => .ok (.list exl')
          | .error e => .error e
        | .error e => .error e
      else .ok (.list exl)
    | _, _ => .ok existing

/-- The dict-branch loop of `dict_pop`. -/
def dpFold (fuel : Nat) (eps : List (String × PyValue))
    (rps : List (String × PyValue)) : Except String (List (String × PyValue)) :=
  match rps with
  | [] => .ok eps
  | (k, v) :: rest =>
    if dictHasKey eps k then
      if pyTruthy v && (v.isDict || v.isList) then
        match dictPopFuel fuel (dictGet eps k) v with
        | .ok sub => dpFold fuel (dictSet eps k sub) rest
        | .error e => .error e
      else dpFold fuel (dictRemove eps k) rest
    else dpFold fuel eps rest

/-- The list-branch loop of `dict_pop`, over the descending-sorted
delete-spec tuples. -/
def dpList (fuel : Nat) (exl : List PyValue) (desc : List PyValue) :
    Except String (List PyValue) :=
  match desc with
  | [] => .ok exl
  | ele :: rest =>
    match ele with
    | .tuple (index :: value :: _) =>
      if pyTruthy value && (value.isDict || value.isList) then
        -- `self.dict_pop(existing[index], value)` mutates the element
        match pyListGet exl index with
        | .ok sub0 =>
          match dictPopFuel fuel sub0 value with
          | .ok sub =>
            match pyListAssign exl index sub with
            | .ok exl' => dpList fuel exl' rest
            | .error e => .error e
          | .error e => .error e
        | .error e => .error e
      else
        match pyLtLen index exl.length with
        | .ok true =>
          match pyListPop exl index with
          | .ok exl' => dpList fuel exl' rest
          | .error e => .error e
        | .ok false => dpList fuel exl rest
        | .error e => .error e
    | .tuple _ => .error "IndexError: tuple index out of range"
    | _ => .error "unreachable: every element is a tuple after the scan loop"

end

mutual

/-- Computable structural size of a `PyValue` (used only to pick a
sufficient recursion fuel for `dict_pop`; it dominates the nesting depth). -/
def pySize : PyValue → Nat
  | .list xs => 1 + pySizeList xs
  | .dict ps => 1 + pySizePairs ps
  | .tuple xs => 1 + pySizeList xs
  | _ => 1

def pySizeList : List PyValue → Nat
  | [] => 0
  | x :: rest => pySize x + pySizeList rest

def pySizePairs : List (String × PyValue) → Nat
  | [] => 0
  | (_, v) :: rest => pySize v + pySizePairs rest

end

/-- `Firestore.dict_pop(existing, removes)` entry point: see `dictPopFuel`. -/
def dict_pop (existing removes : PyValue) : Except String PyValue :=
  dictPopFuel (pySize removes + 1) existing removes

/-! ## Response parsing (`parse_result`, `parse_result_update`) -/

mutual

/-- Best-effort Python `str(...)`/`repr` of a JSON-ish value, used only in
the diagnostic `'ERROR:' + str(r)` branches (no claim depends on these
strings). -/
def pyRepr : PyValue → String
  | .none => "None"
  | .bool b => if b then "True" else "False"
  | .int n => intToString n
  | .float _ => "<float>"
  | .str s => "'" ++ s ++ "'"
  | .bytes s => "b'" ++ s ++ "'"
  | .geoPoint _ _ => "<GeoPoint object>"
  | .timeStamp _ => "<TimeStamp object>"
  | .reference _ => "<Reference object>"
  | .list xs => "[" ++ pyReprList xs ++ "]"
  | .dict ps => "\x7b" ++ pyReprPairs ps ++ "\x7d"
  | .tuple xs => "(" ++ pyReprList xs ++ ")"
  | .other t => "<" ++ t ++ " object>"

def pyReprList : List PyValue → String
  | [] => ""
  | [x] => pyRepr x
  | x :: rest => pyRepr x ++ ", " ++ pyReprList rest

def pyReprPairs : List (String × PyValue) → String
  | [] => ""
  | [(k, v)] => "'" ++ k ++ "': " ++ pyRepr v
  | (k, v) :: rest => "'" ++ k ++ "': " ++ pyRepr v ++ ", " ++ pyReprPairs rest

end

/-- Substring test on character lists (Python `needle in haystack` for
strings). -/
def charsInfix (needle hay : List Char) : Bool :=
  match hay with
  | [] => needle.isEmpty
  | _ :: rest => needle.isPrefixOf hay || charsInfix needle rest

/-- Python `key in container`: dict key membership, list/tuple element
membership, substring test on strings; `TypeError` otherwise. -/
def pyContains (container : PyValue) (key : String) : Except String Bool :=
  match container with
  | .dict ps => .ok (dictHasKey ps key)
  | .list xs => .ok (xs.any (fun x => decide (x = .str key)))
  | .tuple xs => .ok (xs.any (fun x => decide (x = .str key)))
  | .str s => .ok (charsInfix key.data s.data)
  | _ => .error "TypeError: argument is not iterable"

/-- Python `r[key]` with a string key: dict lookup (`KeyError` when absent);
`TypeError` on anything else. -/
def pyGetItemStr (r : PyValue) (k : String) : Except String PyValue :=
  match r with
  | .dict ps => if dictHasKey ps k then .ok (dictGet ps k) else .error ("KeyError: " ++ k)
  | _ => .error "TypeError: object is not subscriptable with a string"

/-- Python `x[0]`. -/
def pyGetIdx0 : PyValue → Except String PyValue
  | .list (x :: _) => .ok x
  | .list [] => .error "IndexError: list index out of range"
  | .tuple (x :: _) => .ok x
  | .tuple [] => .error "IndexError: tuple index out of range"
  | .str s =>
    match s.data with
    | c :: _ => .ok (.str (String.mk [c]))
    | [] => .error "IndexError: string index out of range"
  | _ => .error "TypeError: object is not subscriptable"

/-- `Firestore.parse_result(r)`: decodes a read/create response body into
the `(success, data-or-message, update_time)` triple.  Errors of this
`Except` are exceptions that the caller's `try`/`except` turns into an
`ERROR:` triple. -/
def parse_result (r : PyValue) : Except String (Bool × PyValue × PyValue) :=
  match pyContains r "fields" with
  | .error e => .error e
  | .ok true =>
    match pyGetItemStr r "fields" with
    | .error e => .error e
    | .ok f =>
      match dict_from_firestore f with
      | .error e => .error e
      | .ok d =>
        match pyContains r "updateTime" with
        | .error e => .error e
        | .ok true =>
          match pyGetItemStr r "updateTime" with
          | .error e => .error e
          | .ok ut => .ok (true, d, ut)
        | .ok false => .ok (true, d, .str "")
  | .ok false =>
    match pyContains r "error" with
    | .error e => .error e
    | .ok true =>
      match pyGetItemStr r "error" with
      | .error e => .error e
      | .ok errv =>
        match pyContains errv "message" with
        | .error e => .error e
        | .ok true =>
          match pyGetItemStr errv "message" with
          | .error e => .error e
          | .ok msg =>
            match msg with
            | .str m => .ok (false, .str ("ERROR: " ++ m), .str "")
            | _ => .error "TypeError: can only concatenate str to str"
        | .ok false => .ok (false, .str ("ERROR:" ++ pyRepr r), .str "")
    | .ok false => .ok (false, .str ("ERROR:" ++ pyRepr r), .str "")

/-- The `elif 'error' in r ... else ...` tail of `parse_result_update`. -/
def parse_result_update_tail (r : PyValue) : Except String (Bool × PyValue × PyValue) :=
  match pyContains r "error" with
  | .error e => .error e
  | .ok true =>
    match pyGetItemStr r "error" with
    | .error e => .error e
    | .ok errv =>
      match pyContains errv "message" with
      | .error e => .error e
      | .ok true =>
        match pyGetItemStr errv "message" with
        | .error e => .error e
        | .ok msg =>
          match msg with
          | .str m => .ok (false, .str ("ERROR: " ++ m), .str "")
          | _ => .error "TypeError: can only concatenate str to str"
      | .ok false => .ok (false, .str ("ERROR:" ++ pyRepr r), .str "")
  | .ok false => .ok (false, .str ("ERROR:" ++ pyRepr r), .str "")

/-- `Firestore.parse_result_update(r, data)`: on a commit response carrying
`writeResults[0].updateTime` it returns success with the locally merged
`data` (the commit response does not echo the written fields). -/
def parse_result_update (r data : PyValue) : Except String (Bool × PyValue × PyValue) :=
  match pyContains r "writeResults" with
  | .error e => .error e
  | .ok true =>
    match pyGetItemStr r "writeResults" with
    | .error e => .error e
    | .ok wr =>
      match pyGetIdx0 wr with
      | .error e => .error e
      | .ok first =>
        match pyContains first "updateTime" with
        | .error e => .error e
        | .ok true =>
          match pyGetItemStr first "updateTime" with
          | .error e => .error e
          | .ok ut => .ok (true, data, ut)
        | .ok false => parse_result_update_tail r
  | .ok false => parse_result_update_tail r

/-! ## The optimistic update controller (`Firestore.update`) -/

/-- The size-limit error message (`str(size)` interpolated). -/
def sizeErrMsg (size : Nat) : String :=
  "ERROR: Dict contains too many elements (" ++ intToString size ++ ") for Firestore."

/-- The update-timed-out error message. -/
def timedOutMsg (collection document : String) : String :=
  "ERROR: Update of " ++ collection ++ "/" ++ document ++ " timed out."

/-- The merge phase of one update attempt (source lines 189–192): apply the
replace overlay, then the delete overlay, then the caller's validation
callback (which mutates the merged document in place; the model's callback
returns the post-mutation document, or raises).  These calls sit outside
the `try`/`except` of `update`, so an error here is an uncaught exception. -/
def mergePhase (existing replace delete : PyValue)
    (callback : Option (PyValue → Except String PyValue)) : Except String PyValue :=
  match dict_replace existing replace with
  | .error e => .error e
  | .ok (e1, _) =>
    match dict_pop e1 delete with
    | .error e => .error e
    | .ok e2 =>
      match callback with
      | Option.none => .ok e2
      | some f => f e2

/-- The `r.status_code == 400 and 'error' in t and 'status' in t['error']`
test followed by `t['error']['status'] == 'FAILED_PRECONDITION'`. -/
def isFailedPrecondition (status : Nat) (t : PyValue) : Except String Bool :=
  if status = 400 then
    match pyContains t "error" with
    | .error e => .error e
    | .ok true =>
      match pyGetItemStr t "error" with
      | .error e => .error e
      | .ok errv =>
        match pyContains errv "status" with
        | .error e => .error e
        | .ok true =>
          match pyGetItemStr errv "status" with
          | .error e => .error e
          | .ok sv => .ok (decide (sv = .str "FAILED_PRECONDITION"))
        | .ok false => .ok false
    | .ok false => .ok false
  else .ok false

/-- Result of the `try:`-block of one update attempt. -/
inductive CommitStep where
  | retry
  | finish (ok : Bool) (data : PyValue) (time : PyValue)
deriving DecidableEq

/-- The `try:`-block of one update attempt (source lines 199–223): encode
the merged document, build the conditional-commit envelope, post it
(`resp` is the transport oracle for this attempt, returning the status code
and parsed JSON body, or a transport/JSON exception), dispatch on
`FAILED_PRECONDITION`, else parse the commit result.  Every `Except` error
is caught by the `except` clause and becomes a `(False, 'ERROR: ...', '')`
return.  The second component counts commit requests issued. -/
def commitBlock (merged updTime : PyValue) (pathName : String)
    (resp : PyValue → Except String (Nat × PyValue)) : CommitStep × Nat :=
  match dict_to_firestore merged false with
  | .error e => (.finish false (.str ("ERROR: " ++ e)) (.str ""), 0)
  | .ok fields =>
    let payload : PyValue := .dict [("writes", .list [.dict [
      ("update", .dict [("fields", fields), ("name", .str pathName)]),
      ("currentDocument", .dict [("updateTime", updTime)])]])]
    match resp payload with
    | .error e => (.finish false (.str ("ERROR: " ++ e)) (.str ""), 1)
    | .ok (status, t) =>
      match isFailedPrecondition status t with
      | .error e => (.finish false (.str ("ERROR: " ++ e)) (.str ""), 1)
      | .ok true => (.retry, 1)
      | .ok false =>
        match parse_result_update t merged with
        | .error e => (.finish false (.str ("ERROR: " ++ e)) (.str ""), 1)
        | .ok (ok, d, tm) => (.finish ok d tm, 1)

/-- Outcome of an `update` call: a normal `(success, data, update_time)`
return, an uncaught exception, or model fuel exhaustion (unreachable: the
backoff ceiling bounds the loop at 16 iterations and the entry point
supplies 64). -/
inductive UOutcome where
  | ret (ok : Bool) (data : PyValue) (time : PyValue)
  | raised (msg : String)
  | fuelOut
deriving DecidableEq

/-- Result of an `update` call plus its observable trace: the argument of
each `sleep`, and the number of read and commit requests issued. -/
structure UpdateResult where
  outcome : UOutcome
  sleeps : List Rat
  reads : Nat
  commits : Nat
deriving DecidableEq

/-- The backoff bookkeeping after `attempt += 1` (source lines 179–182). -/
def stepBackoff (attempt : Nat) (backoff : Rat) : Rat :=
  if attempt = 5 then 1 else if 5 < attempt then backoff * (3 / 2) else backoff

/-- The `while True:` loop of `Firestore.update`.  `rd n` is the result of
`self.read` on the n-th attempt (1-based); `cm n payload` the transport
response of the n-th conditional commit. -/
def updateLoop (rd : Nat → Bool × PyValue × PyValue)
    (cm : Nat → PyValue → Except String (Nat × PyValue))
    (replace delete : PyValue)
    (callback : Option (PyValue → Except String PyValue))
    (collection document pathName : String) :
    Nat → Nat → Rat → List Rat → Nat → Nat → UpdateResult
  | 0, _, _, sleeps, r, c => ⟨.fuelOut, sleeps, r, c⟩
  | fuel + 1, attempt0, backoff0, sleeps0, r, c =>
    let sleeps := sleeps0 ++ [backoff0]
    let attempt := attempt0 + 1
    let backoff := stepBackoff attempt backoff0
    if 60 ≤ backoff then
      ⟨.ret false (.str (timedOutMsg collection document)) (.str ""), sleeps, r, c⟩
    else
      match rd attempt with
      | (success, existing, updTime) =>
        if success then
          match mergePhase existing replace delete callback with
          | .error e => ⟨.raised e, sleeps, r + 1, c⟩
          | .ok merged =>
            if 19990 < dict_size merged then
              ⟨.ret false (.str (sizeErrMsg (dict_size merged))) (.str ""),
                sleeps, r + 1, c⟩
            else
              match commitBlock merged updTime pathName (cm attempt) with
              | (.retry, n) =>
                updateLoop rd cm replace delete callback collection document
                  pathName fuel attempt backoff sleeps (r + 1) (c + n)
              | (.finish ok d tm, n) => ⟨.ret ok d tm, sleeps, r + 1, c + n⟩
        else ⟨.ret false existing updTime, sleeps, r + 1, c⟩

/-- `Firestore.update(collection, document, replace, delete, callback)`:
defaults empty collection/document to the authenticated `local_id`, then
runs the retry loop from `attempt = 0`, `backoff = 0`. -/
def update (projectId localId : String)
    (rd : Nat → Bool × PyValue × PyValue)
    (cm : Nat → PyValue → Except String (Nat × PyValue))
    (replace delete : PyValue)
    (callback : Option (PyValue → Except String PyValue))
    (collection document : String) : UpdateResult :=
  let collection := if collection = "" then localId else collection
  let document := if document = "" then localId else document
  let pathName := "projects/" ++ projectId ++ "/databases/(default)/documents/"
    ++ collection ++ "/" ++ document
  updateLoop rd cm replace delete callback collection document pathName
    64 0 0 [] 0 0

/-! ## `Firestore.create` -/

/-- `Firestore.create(collection, document, data)`: size check before any
request; then encode and post inside `try`/`except` (`post url payload`
is the transport oracle).  Returns the result triple and the number of
requests issued. -/
def create (projectId localId : String) (collection document : String)
    (data : PyValue) (post : String → PyValue → Except String PyValue) :
    (Bool × PyValue × PyValue) × Nat :=
  let collection := if collection = "" then localId else collection
  let document := if document = "" then localId else document
  let size := dict_size data
  if 19990 < size then
    ((false, .str (sizeErrMsg size), .str ""), 0)
  else
    let requestPath := "https://firestore.googleapis.com/v1/projects/"
      ++ projectId ++ "/databases/(default)/documents/"
      ++ collection ++ "?documentId=" ++ document
    match dict_to_firestore data false with
    | .error e => ((false, .str ("ERROR: " ++ e), .str ""), 0)
    | .ok fields =>
      match post requestPath (.dict [("fields", fields)]) with
      | .error e => ((false, .str ("ERROR: " ++ e), .str ""), 1)
      | .ok rjson =>
        match parse_result rjson with
        | .ok t => (t, 1)
        | .error e => ((false, .str ("ERROR: " ++ e), .str ""), 1)

/-! ## Claim C9: GeoPoint construction -/

/-- **C9.** GeoPoint construction: `GeoPoint(200, -300)` stores
`{latitude: 90, longitude: -180}` (out-of-range numeric input is clamped to
the nearest bound) and `GeoPoint("x", "y")` stores
`{latitude: 0, longitude: 0}` (non-numeric input defaults each field to 0);
in general every `int` or `float` input is clamped to `[-90, 90]` /
`[-180, 180]`, and string inputs default to 0. -/
theorem C9_geopoint_clamping :
    geoPointInit (.int 200) (.int (-300)) = (90, -180) ∧
    geoPointInit (.str "x") (.str "y") = (0, 0) ∧
    (∀ a b : Int, geoPointInit (.int a) (.int b)
      = (min (max (a : Rat) (-90)) 90, min (max (b : Rat) (-180)) 180)) ∧
    (∀ p q : Rat, geoPointInit (.float p) (.float q)
      = (min (max p (-90)) 90, min (max q (-180)) 180)) ∧
    (∀ s t : String, geoPointInit (.str s) (.str t) = (0, 0)) := by
  refine ⟨by decide, by decide, fun a b => rfl, fun p q => rfl, fun s t => rfl⟩

/-! ## Claim C2: the backoff schedule of `update` -/

/-- The backoff value at the top of the loop iteration in which `attempt`
becomes `k + 1` (so `sched k` is the duration of the k-th sleep, 0-based):
`0` while `k ≤ 4`, then `1.5^(k-5)`. -/
def sched (k : Nat) : Rat := if k ≤ 4 then 0 else (3 / 2) ^ (k - 5)

theorem stepBackoff_sched (k : Nat) : stepBackoff (k + 1) (sched k) = sched (k + 1) := by
  by_cases h5 : k + 1 = 5
  · have : k = 4 := by omega
    subst this
    decide
  · by_cases hlt : k + 1 < 5
    · have hk : k ≤ 3 := by omega
      simp only [stepBackoff, if_neg h5, if_neg (by omega : ¬5 < k + 1), sched,
        if_pos (by omega : k ≤ 4), if_pos (by omega : k + 1 ≤ 4)]
    · have hk : 5 ≤ k := by omega
      simp only [stepBackoff, if_neg h5, if_pos (by omega : 5 < k + 1), sched,
        if_neg (by omega : ¬k ≤ 4), if_neg (by omega : ¬k + 1 ≤ 4)]
      rw [show k + 1 - 5 = (k - 5) + 1 from by omega, pow_succ]

theorem sched_lt_60 {k : Nat} (h : k ≤ 15) : sched k < 60 := by
  interval_cases k <;> norm_num [sched]

theorem sched_16_ge : (60 : Rat) ≤ sched 16 := by norm_num [sched]

/-- The expected sleep trace starting at attempt counter `k`, `m` entries. -/
def schedList (k m : Nat) : List Rat := (List.range m).map (fun i => sched (k + i))

theorem schedList_succ (k m : Nat) :
    schedList k (m + 1) = sched k :: schedList (k + 1) m := by
  have hf : (fun i => sched (k + i)) ∘ Nat.succ = fun i => sched (k + 1 + i) := by
    funext i
    simp only [Function.comp_apply]
    congr 1
    omega
  simp only [schedList, List.range_succ_eq_map, List.map_cons, Nat.add_zero,
    List.map_map, hf]

/-- Schedule invariant: however the transport oracles behave, starting the
loop at attempt counter `k` with backoff `sched k` appends exactly a
`sched`-trace to the sleep log. -/
theorem updateLoop_sleeps_sched (rd : Nat → Bool × PyValue × PyValue)
    (cm : Nat → PyValue → Except String (Nat × PyValue))
    (replace delete : PyValue) (callback : Option (PyValue → Except String PyValue))
    (collection document pathName : String) :
    ∀ (fuel k : Nat) (sleeps0 : List Rat) (r c : Nat), ∃ m,
      (updateLoop rd cm replace delete callback collection document pathName
        fuel k (sched k) sleeps0 r c).sleeps = sleeps0 ++ schedList k m := by
  intro fuel
  induction fuel with
  | zero =>
    intro k sleeps0 r c
    exact ⟨0, by simp [updateLoop, schedList]⟩
  | succ fuel ih =>
    intro k sleeps0 r c
    simp only [updateLoop]
    rw [stepBackoff_sched k]
    by_cases h60 : (60 : Rat) ≤ sched (k + 1)
    · rw [if_pos h60]
      exact ⟨1, by simp [schedList, List.range_succ]⟩
    · rw [if_neg h60]
      obtain ⟨success, existing, updTime⟩ := rd (k + 1)
      by_cases hs : success
      · simp only [hs, if_true]
        cases hm : mergePhase existing replace delete callback with
        | error e =>
          exact ⟨1, by simp [schedList, List.range_succ]⟩
        | ok merged =>
          by_cases hsize : 19990 < dict_size merged
          · simp only [if_pos hsize]
            exact ⟨1, by simp [schedList, List.range_succ]⟩
          · simp only [if_neg hsize]
            rcases hc : commitBlock merged updTime pathName (cm (k + 1)) with ⟨step, n⟩
            cases step with
            | retry =>
              obtain ⟨m, hm'⟩ := ih (k + 1) (sleeps0 ++ [sched k]) (r + 1) (c + n)
              refine ⟨m + 1, ?_⟩
              rw [hm', schedList_succ]
              simp
            | finish ok d tm =>
              exact ⟨1, by simp [schedList, List.range_succ]⟩
      · simp only [hs, if_false]
        exact ⟨1, by simp [schedList, List.range_succ]⟩

/-- A read oracle that always succeeds with an empty document. -/
def readAlwaysOk : Nat → Bool × PyValue × PyValue := fun _ => (true, .dict [], .str "t")

/-- A commit oracle that always answers HTTP 400 `FAILED_PRECONDITION`
(permanent write contention). -/
def commitAlwaysPrecond : Nat → PyValue → Except String (Nat × PyValue) := fun _ _ =>
  .ok (400, .dict [("error", .dict [("status", .str "FAILED_PRECONDITION")])])

/-- The canonical fully-contended `update` run. -/
def runAllPrecond : UpdateResult :=
  update "p" "uid" readAlwaysOk commitAlwaysPrecond (.dict []) (.dict [])
    Option.none "c" "d"

theorem mergePhase_empty :
    mergePhase (.dict []) (.dict []) (.dict []) Option.none = .ok (.dict []) := by
  simp [mergePhase, dict_replace, drFold, dict_pop, dictPopFuel, dpFold, pySize,
    pySizePairs]

theorem commitBlock_empty_precond (n : Nat) (updTime : PyValue) (pathName : String) :
    commitBlock (.dict []) updTime pathName (commitAlwaysPrecond n) = (.retry, 1) := by
  simp [commitBlock, dict_to_firestore, fsFields, commitAlwaysPrecond,
    isFailedPrecondition, pyContains, pyGetItemStr, dictHasKey, dictGet]

/-- Under permanent precondition failures, the loop started at attempt
counter `k ≤ 15` with backoff `sched k` sleeps through the rest of the
schedule and times out at attempt 16, with one read and one commit per
completed attempt and none in the final (16th) iteration. -/
theorem allPrecondLoop (col doc pathName : String) :
    ∀ (fuel k : Nat) (sleeps0 : List Rat) (r c : Nat), k ≤ 15 → 16 ≤ k + fuel →
    updateLoop readAlwaysOk commitAlwaysPrecond (.dict []) (.dict []) Option.none
        col doc pathName fuel k (sched k) sleeps0 r c
      = ⟨.ret false (.str (timedOutMsg col doc)) (.str ""),
         sleeps0 ++ schedList k (16 - k), r + (15 - k), c + (15 - k)⟩ := by
  intro fuel
  induction fuel with
  | zero =>
    intro k sleeps0 r c hk hfuel
    omega
  | succ fuel ih =>
    intro k sleeps0 r c hk hfuel
    simp only [updateLoop]
    rw [stepBackoff_sched k]
    by_cases hk15 : k = 15
    · subst hk15
      rw [if_pos sched_16_ge]
      have h1 : 16 - 15 = 1 := by norm_num
      simp [h1, schedList, List.range_succ]
    · have hklt : k + 1 ≤ 15 := by omega
      rw [if_neg (by exact not_le.mpr (sched_lt_60 hklt))]
      show (if (readAlwaysOk (k + 1)).1 = true then _ else _) = _
      simp only [readAlwaysOk]
      rw [if_pos (by trivial)]
      rw [mergePhase_empty]
      simp only [show dict_size (.dict []) = 0 from rfl]
      rw [if_neg (by norm_num)]
      rw [commitBlock_empty_precond (k + 1)]
      show updateLoop readAlwaysOk commitAlwaysPrecond (.dict []) (.dict [])
        Option.none col doc pathName fuel (k + 1) (sched (k + 1))
        (sleeps0 ++ [sched k]) (r + 1) (c + 1) = _
      rw [ih (k + 1) (sleeps0 ++ [sched k]) (r + 1) (c + 1) hklt (by omega)]
      have e1 : 16 - k = (16 - (k + 1)) + 1 := by omega
      have e2 : r + 1 + (15 - (k + 1)) = r + (15 - k) := by omega
      have e3 : c + 1 + (15 - (k + 1)) = c + (15 - k) := by omega
      rw [e2, e3, e1, schedList_succ]
      simp

/-- **C2 — counterexample.**  The claim says the sleep before attempt 5 is
1 second and the sleep before attempt 6 is 1.5 seconds.  In the canonical
fully-contended run (which performs all 16 sleeps) the sleep before
attempt 5 (0-based index 4) is 0, and the one before attempt 6 is 1. -/
theorem C2_counterexample :
    runAllPrecond.sleeps.getD 4 0 ≠ 1 ∧ runAllPrecond.sleeps.getD 4 0 = 0 ∧
    runAllPrecond.sleeps.getD 5 0 ≠ 3 / 2 ∧ runAllPrecond.sleeps.getD 5 0 = 1 ∧
    runAllPrecond.sleeps.length = 16 := by
  have hrun : runAllPrecond
      = ⟨.ret false (.str (timedOutMsg "c" "d")) (.str ""),
         schedList 0 16, 15, 15⟩ := by
    simp only [runAllPrecond, update]
    norm_num
    rw [show (0 : Rat) = sched 0 from by norm_num [sched]]
    rw [allPrecondLoop _ _ _ 64 0 [] 0 0 (by norm_num) (by norm_num)]
    norm_num
    rfl
  rw [hrun]
  norm_num [schedList, sched, List.range_succ]

/-- **C2 (amended).**  In one `update` call, every sleep follows the
schedule `sched`: 0 before attempts 1–5, exactly 1 second before attempt 6,
1.5 seconds before attempt 7, multiplying by 1.5 for every attempt
thereafter; and once the computed backoff reaches 60 — which first happens
when `attempt` becomes 16 — the call fails with the update-timed-out error
without issuing a further network request: the canonical fully-contended
run performs 16 sleeps but only 15 reads and 15 commits. -/
theorem C2_amended :
    (∀ projectId localId rd cm replace delete callback collection document, ∃ m,
      (update projectId localId rd cm replace delete callback
        collection document).sleeps = schedList 0 m) ∧
    sched 4 = 0 ∧ sched 5 = 1 ∧ sched 6 = 3 / 2 ∧
    (∀ k, 5 ≤ k → sched (k + 1) = sched k * (3 / 2)) ∧
    runAllPrecond = ⟨.ret false (.str (timedOutMsg "c" "d")) (.str ""),
      schedList 0 16, 15, 15⟩ := by
  refine ⟨?_, by norm_num [sched], by norm_num [sched], by norm_num [sched], ?_, ?_⟩
  · intro projectId localId rd cm replace delete callback collection document
    simp only [update]
    rw [show (0 : Rat) = sched 0 from by norm_num [sched]]
    obtain ⟨m, hm⟩ := updateLoop_sleeps_sched rd cm replace delete callback _ _ _ 64 0 [] 0 0
    exact ⟨m, by rw [hm]; simp⟩
  · intro k hk
    simp only [sched, if_neg (by omega : ¬k + 1 ≤ 4), if_neg (by omega : ¬k ≤ 4)]
    rw [show k + 1 - 5 = (k - 5) + 1 from by omega, pow_succ]
  · simp only [runAllPrecond, update]
    norm_num
    rw [show (0 : Rat) = sched 0 from by norm_num [sched]]
    rw [allPrecondLoop _ _ _ 64 0 [] 0 0 (by norm_num) (by norm_num)]
    norm_num
    rfl

/-- Closed witness for the hypothesis-bearing conjunct of `C2_amended`. -/
theorem C2_amended_witness : sched (5 + 1) = sched 5 * (3 / 2) :=
  C2_amended.2.2.2.2.1 5 (by norm_num)

/-! ## Claim C3: optimistic retry returns the second attempt's merge -/

/-- **C3.** If the first attempt's read succeeds and its conditional commit
answers HTTP 400 `FAILED_PRECONDITION`, and the second attempt's read
succeeds and its commit is accepted (`writeResults[0].updateTime` present),
then `update` returns success with the second attempt's freshly re-read and
re-merged document `m2` — together with exactly two reads, two commits and
two zero-length sleeps — not the first attempt's merged document. -/
theorem C3_optimistic_retry
    (projectId localId collection document : String)
    (rd : Nat → Bool × PyValue × PyValue)
    (cm : Nat → PyValue → Except String (Nat × PyValue))
    (replace delete : PyValue)
    (callback : Option (PyValue → Except String PyValue))
    (d1 t1 d2 t2 m1 m2 w1 w2 b1 b2 T : PyValue) (s2 : Nat)
    (hr1 : rd 1 = (true, d1, t1)) (hr2 : rd 2 = (true, d2, t2))
    (hm1 : mergePhase d1 replace delete callback = .ok m1)
    (hm2 : mergePhase d2 replace delete callback = .ok m2)
    (hs1 : dict_size m1 ≤ 19990) (hs2 : dict_size m2 ≤ 19990)
    (he1 : dict_to_firestore m1 false = .ok w1)
    (he2 : dict_to_firestore m2 false = .ok w2)
    (hc1 : ∀ p, cm 1 p = .ok (400, b1))
    (hb1 : isFailedPrecondition 400 b1 = .ok true)
    (hc2 : ∀ p, cm 2 p = .ok (s2, b2))
    (hb2 : isFailedPrecondition s2 b2 = .ok false)
    (hp2 : parse_result_update b2 m2 = .ok (true, m2, T)) :
    update projectId localId rd cm replace delete callback collection document
      = ⟨.ret true m2 T, [0, 0], 2, 2⟩ := by
  have hcb1 : ∀ path, commitBlock m1 t1 path (cm 1) = (.retry, 1) := by
    intro path
    simp only [commitBlock, he1]
    rw [hc1]
    simp only [hb1]
  have hcb2 : ∀ path, commitBlock m2 t2 path (cm 2) = (.finish true m2 T, 1) := by
    intro path
    simp only [commitBlock, he2]
    rw [hc2]
    simp only [hb2, hp2]
  simp only [update]
  rw [show (64 : Nat) = 63 + 1 from rfl]
  rw [updateLoop]
  norm_num
  rw [show stepBackoff 1 0 = 0 from by norm_num [stepBackoff]]
  rw [if_neg (by norm_num : ¬(60 : Rat) ≤ 0)]
  rw [hr1]
  simp only [hm1]
  rw [if_pos (by trivial)]
  rw [if_neg (show ¬19990 < dict_size m1 from by omega)]
  simp only [hcb1]
  rw [show (63 : Nat) = 62 + 1 from rfl]
  rw [updateLoop]
  norm_num
  rw [show stepBackoff 2 0 = 0 from by norm_num [stepBackoff]]
  rw [if_neg (by norm_num : ¬(60 : Rat) ≤ 0)]
  rw [hr2]
  simp only [hm2]
  rw [if_pos (by trivial)]
  rw [if_neg (show ¬19990 < dict_size m2 from by omega)]
  simp only [hcb2]

/-- Read oracle for the witness: attempt 1 sees `{v: 1}`, attempt 2 sees the
concurrently-updated `{v: 2}`. -/
def rdTwo : Nat → Bool × PyValue × PyValue := fun n =>
  if n = 1 then (true, .dict [("v", .int 1)], .str "t1")
  else (true, .dict [("v", .int 2)], .str "t2")

/-- Commit oracle for the witness: precondition failure on attempt 1,
acceptance on attempt 2. -/
def cmTwo : Nat → PyValue → Except String (Nat × PyValue) := fun n _ =>
  if n = 1 then .ok (400, .dict [("error", .dict [("status", .str "FAILED_PRECONDITION")])])
  else .ok (200, .dict [("writeResults", .list [.dict [("updateTime", .str "T2")]])])

/-- Closed witness for `C3_optimistic_retry`: the returned document is the
second attempt's merge `{v: 2, w: 9}`, not the first attempt's `{v: 1, w: 9}`. -/
theorem C3_witness :
    update "p" "uid" rdTwo cmTwo (.dict [("w", .int 9)]) (.dict [])
        Option.none "c" "d"
      = ⟨.ret true (.dict [("v", .int 2), ("w", .int 9)]) (.str "T2"), [0, 0], 2, 2⟩ := by
  exact C3_optimistic_retry "p" "uid" "c" "d" rdTwo cmTwo
    (.dict [("w", .int 9)]) (.dict []) Option.none
    _ _ _ _
    (.dict [("v", .int 1), ("w", .int 9)]) (.dict [("v", .int 2), ("w", .int 9)])
    _ _ _ _ _ _
    rfl rfl
    (by simp [mergePhase, dict_replace, drFold, dictHasKey, dictGet, dictSet,
      dict_pop, dictPopFuel, dpFold, pySize, pySizePairs])
    (by simp [mergePhase, dict_replace, drFold, dictHasKey, dictGet, dictSet,
      dict_pop, dictPopFuel, dpFold, pySize, pySizePairs])
    (by decide) (by decide)
    rfl rfl
    (fun p => rfl) (by decide) (fun p => rfl) (by decide) (by decide)

/-! ## Claim C4: the 19,990-leaf size limit -/

/-- **C4.** Any document with at least 19,991 scalar leaves (in particular
exactly 19,991) is rejected: `create` returns the size-limit error without
issuing any request, and `update`'s size check after merging returns the
size-limit error after the single read, with no commit request and no
retry. -/
theorem C4_size_limit :
    (∀ (projectId localId collection document : String) (data : PyValue)
      (post : String → PyValue → Except String PyValue),
      19991 ≤ dict_size data →
      create projectId localId collection document data post
        = ((false, .str (sizeErrMsg (dict_size data)), .str ""), 0)) ∧
    (∀ (projectId localId collection document : String)
      (rd : Nat → Bool × PyValue × PyValue)
      (cm : Nat → PyValue → Except String (Nat × PyValue))
      (replace delete : PyValue) (callback : Option (PyValue → Except String PyValue))
      (d t m : PyValue),
      rd 1 = (true, d, t) →
      mergePhase d replace delete callback = .ok m →
      19991 ≤ dict_size m →
      update projectId localId rd cm replace delete callback collection document
        = ⟨.ret false (.str (sizeErrMsg (dict_size m))) (.str ""), [0], 1, 0⟩) := by
  constructor
  · intro projectId localId collection document data post hsize
    simp only [create]
    rw [if_pos (by omega : 19990 < dict_size data)]
  · intro projectId localId collection document rd cm replace delete callback d t m
      hr hm hsize
    simp only [update]
    rw [show (64 : Nat) = 63 + 1 from rfl]
    rw [updateLoop]
    norm_num
    rw [show stepBackoff 1 0 = 0 from by norm_num [stepBackoff]]
    rw [if_neg (by norm_num : ¬(60 : Rat) ≤ 0)]
    rw [hr]
    simp only [hm]
    rw [if_pos (by trivial)]
    rw [if_pos (by omega : 19990 < dict_size m)]

/-- A document carrying exactly 19,991 scalar leaves. -/
def bigDoc : PyValue := .dict [("a", .list (List.replicate 19991 (.int 0)))]

theorem dictSizeList_replicate (n : Nat) :
    dictSizeList (List.replicate n (.int 0)) = n := by
  induction n with
  | zero => rfl
  | succ n ih =>
    rw [List.replicate_succ]
    rw [show dictSizeList (PyValue.int 0 :: List.replicate n (.int 0))
        = dict_size (.int 0) + dictSizeList (List.replicate n (.int 0)) from rfl]
    rw [ih, show dict_size (.int 0) = 1 from rfl]
    omega

/-- Merging empty replace/delete overlays (and no callback) leaves a dict
document unchanged. -/
theorem mergePhase_id (eps : List (String × PyValue)) :
    mergePhase (.dict eps) (.dict []) (.dict []) Option.none = .ok (.dict eps) := by
  simp [mergePhase, dict_replace, drFold, dict_pop, dictPopFuel, dpFold,
    pySize, pySizePairs]

theorem dict_size_bigDoc : dict_size bigDoc = 19991 := by
  simp only [bigDoc, dict_size, dictSizePairs, dictSizeList_replicate]

/-- Closed witness for `C4_size_limit` at a 19,991-leaf document. -/
theorem C4_witness :
    create "p" "uid" "c" "d" bigDoc (fun _ _ => .ok (.dict []))
      = ((false, .str (sizeErrMsg 19991), .str ""), 0) ∧
    update "p" "uid" (fun _ => (true, bigDoc, .str "t"))
        (fun _ _ => .ok (200, .dict [])) (.dict []) (.dict [])
        Option.none "c" "d"
      = ⟨.ret false (.str (sizeErrMsg 19991)) (.str ""), [0], 1, 0⟩ := by
  constructor
  · have h := C4_size_limit.1 "p" "uid" "c" "d" bigDoc (fun _ _ => .ok (.dict []))
      (by rw [dict_size_bigDoc])
    rw [h, dict_size_bigDoc]
  · have hmp : mergePhase bigDoc (.dict []) (.dict []) Option.none = .ok bigDoc :=
      mergePhase_id _
    have h := C4_size_limit.2 "p" "uid" "c" "d"
      (fun _ => (true, bigDoc, .str "t")) (fun _ _ => .ok (200, .dict []))
      (.dict []) (.dict []) Option.none bigDoc (.str "t") bigDoc rfl hmp
      (by rw [dict_size_bigDoc])
    rw [h, dict_size_bigDoc]

/-! ## Claim C6: positional delete ordering -/

/-- **C6.** Deleting indices 0 and 2 (with leaf values, i.e. values that do
not trigger recursive descent) from the sequence `[a,b,c,d]` yields `[b,d]`,
for either input ordering of the delete-spec pairs: removals are processed
in strictly descending index order. -/
theorem C6_positional_delete_ordering (a b c d v0 v2 : PyValue)
    (h0 : (pyTruthy v0 && (v0.isDict || v0.isList)) = false)
    (h2 : (pyTruthy v2 && (v2.isDict || v2.isList)) = false) :
    dict_pop (.list [a, b, c, d])
        (.list [.tuple [.int 0, v0], .tuple [.int 2, v2]]) = .ok (.list [b, d]) ∧
    dict_pop (.list [a, b, c, d])
        (.list [.tuple [.int 2, v2], .tuple [.int 0, v0]]) = .ok (.list [b, d]) := by
  constructor <;>
  · simp [dict_pop, dictPopFuel, dpKeyed, pyAsNum, sortDescByKey, insertDesc,
      dpList, pyLtLen, pyListPop, pyListIndexInt, h0, h2, PyValue.isTuple,
      List.eraseIdx]
    norm_num [dpList, pyLtLen, pyListPop, pyListIndexInt, pyAsNum,
      List.eraseIdx, h0, h2, PyValue.isTuple]

/-- Closed witness for `C6_positional_delete_ordering`. -/
theorem C6_witness :
    dict_pop (.list [.str "a", .str "b", .str "c", .str "d"])
        (.list [.tuple [.int 0, .none], .tuple [.int 2, .none]])
      = .ok (.list [.str "b", .str "d"]) ∧
    dict_pop (.list [.str "a", .str "b", .str "c", .str "d"])
        (.list [.tuple [.int 2, .none], .tuple [.int 0, .none]])
      = .ok (.list [.str "b", .str "d"]) :=
  C6_positional_delete_ordering (.str "a") (.str "b") (.str "c") (.str "d")
    .none .none (by decide) (by decide)

/-! ## Claim C10: a malformed sequence delete-spec is ignored wholesale -/

/-- **C10.** If a sequence delete-spec contains any entry that is not a
tuple, `dict_pop` applies no deletions at all to the existing list — the
well-formed tuple entries are ignored too and the list is unchanged (the
scan loop hits `return []` before any removal). -/
theorem C10_malformed_delete_spec (exl rem : List PyValue)
    (h : ∃ e ∈ rem, e.isTuple = false) :
    dict_pop (.list exl) (.list rem) = .ok (.list exl) := by
  have hall : rem.all PyValue.isTuple = false := by
    obtain ⟨e, he, hne⟩ := h
    rcases hb : rem.all PyValue.isTuple with _ | _
    · rfl
    · rw [List.all_eq_true] at hb
      rw [hb e he] at hne
      cases hne
  simp only [dict_pop, dictPopFuel, hall]
  simp

/-- Closed witness for `C10_malformed_delete_spec`. -/
theorem C10_witness :
    dict_pop (.list [.int 1, .int 2])
        (.list [.tuple [.int 0, .none], .int 7]) = .ok (.list [.int 1, .int 2]) :=
  C10_malformed_delete_spec [.int 1, .int 2] [.tuple [.int 0, .none], .int 7]
    ⟨.int 7, by decide, by decide⟩

/-! ## Claim C8: the return value of `dict_replace` -/

/-- **C8 — counterexample.**  The claim says `dict_replace` returns true
exactly when some sequence overlay with positional edits was applied
anywhere during the merge.  Here a positional edit *is* applied (the result
differs from the input at index 0 of the nested list), yet the call returns
`False`: the flag from the recursive list-level call is consumed internally
and the dict-level entry point always returns `False`. -/
theorem C8_counterexample :
    dict_replace (.dict [("a", .list [.int 1, .int 2])])
        (.dict [("a", .list [.tuple [.int 0, .int 9]])])
      = .ok (.dict [("a", .list [.int 9, .int 2])], false) ∧
    (PyValue.dict [("a", .list [.int 9, .int 2])])
      ≠ .dict [("a", .list [.int 1, .int 2])] := by
  exact ⟨by decide, by decide⟩

theorem drList_flag : ∀ (rel exl : List PyValue) (t : Bool) (p : List PyValue × Bool),
    drList exl rel t = .ok p → p.2 = (t || rel.any PyValue.isTuple) := by
  intro rel
  induction rel with
  | nil =>
    intro exl t p h
    simp only [drList] at h
    cases h
    simp
  | cons ele rest ih =>
    intro exl t p h
    cases ele
    case tuple items =>
      match items with
      | [] =>
        simp only [drList] at h
        exact absurd h (by simp)
      | [_] =>
        simp only [drList] at h
        exact absurd h (by simp)
      | index :: value :: more =>
        simp only [drList] at h
        cases hlt : pyLtLen index exl.length with
        | error e =>
          rw [hlt] at h
          exact absurd h (by simp)
        | ok b =>
          rw [hlt] at h
          cases b with
          | true =>
            cases ha : pyListAssign exl index value with
            | error e =>
              rw [ha] at h
              exact absurd h (by simp)
            | ok exl' =>
              rw [ha] at h
              rw [ih exl' true p h]
              simp [PyValue.isTuple]
          | false =>
            cases hq : pyEqLen index exl.length with
            | true =>
              rw [hq] at h
              rw [if_pos rfl] at h
              rw [ih _ true p h]
              simp [PyValue.isTuple]
            | false =>
              rw [hq] at h
              rw [if_neg (by simp)] at h
              rw [ih _ true p h]
              simp [PyValue.isTuple]
    all_goals
      simp only [drList] at h
      rw [ih _ _ p h]
      simp [PyValue.isTuple]

/-- **C8 (amended).**  `dict_replace` returns `False` whenever both
arguments are mappings (the flag of nested list-level calls is used to
choose between positional-edit and wholesale replacement, then discarded);
it returns `True` exactly when both arguments are sequences and *some*
element of the overlay sequence is a tuple — whether or not the positional
edit was actually applied. -/
theorem C8_amended :
    (∀ (eps rps : List (String × PyValue)) (e : PyValue) (f : Bool),
      dict_replace (.dict eps) (.dict rps) = .ok (e, f) → f = false) ∧
    (∀ (exl rel : List PyValue) (e : PyValue) (f : Bool),
      dict_replace (.list exl) (.list rel) = .ok (e, f) →
        f = rel.any PyValue.isTuple) := by
  constructor
  · intro eps rps e f h
    simp only [dict_replace] at h
    cases hd : drFold eps rps with
    | ok eps' =>
      rw [hd] at h
      simp only [Except.ok.injEq, Prod.mk.injEq] at h
      exact h.2.symm
    | error e' =>
      rw [hd] at h
      exact absurd h (by simp)
  · intro exl rel e f h
    simp only [dict_replace] at h
    cases hd : drList exl rel false with
    | ok q =>
      rw [hd] at h
      obtain ⟨ql, qt⟩ := q
      simp only [Except.ok.injEq, Prod.mk.injEq] at h
      have := drList_flag rel exl false (ql, qt) hd
      simp only [Bool.false_or] at this
      rw [← h.2, this]
    | error e' =>
      rw [hd] at h
      exact absurd h (by simp)

/-- Closed witness for `C8_amended`. -/
theorem C8_amended_witness :
    (false : Bool) = false ∧
    (true : Bool) = [PyValue.tuple [.int 0, .int 5]].any PyValue.isTuple := by
  constructor
  · exact C8_amended.1 [("a", .int 1)] [("a", .int 2)] (.dict [("a", .int 2)]) false
      (by decide)
  · exact C8_amended.2 [.int 1] [.tuple [.int 0, .int 5]] (.list [.int 5]) true
      (by decide)

/-! ## Claim C7: whether exceptions can escape the public surface -/

/-- A read oracle whose document contains a 4-element list under `"k"`. -/
def rdBad : Nat → Bool × PyValue × PyValue := fun _ =>
  (true, .dict [("k", .list [.int 1, .int 2, .int 3, .int 4])], .str "t")

/-- **C7 — counterexample.**  The claim says no exception escapes any public
operation for any input.  But `update` runs `dict_replace` outside its
`try`/`except`: the positional overlay `{"k": [(-10, 5)]}` against the
4-element list raises an uncaught `IndexError` (Python computes
`-10 < len([1,2,3,4])`, true, then `existing[-10] = 5` raises), which
propagates to the caller. -/
theorem C7_counterexample :
    (update "p" "uid" rdBad (fun _ _ => .ok (200, .dict []))
        (.dict [("k", .list [.tuple [.int (-10), .int 5]])]) (.dict [])
        Option.none "c" "d").outcome
      = .raised "IndexError: list assignment index out of range" := by
  simp only [update]
  rw [show (64 : Nat) = 63 + 1 from rfl]
  rw [updateLoop]
  norm_num
  rw [show stepBackoff 1 0 = 0 from by norm_num [stepBackoff]]
  rw [if_neg (by norm_num : ¬(60 : Rat) ≤ 0)]
  rw [show rdBad 1 = (true, .dict [("k", .list [.int 1, .int 2, .int 3, .int 4])], .str "t") from rfl]
  rw [show mergePhase (.dict [("k", .list [.int 1, .int 2, .int 3, .int 4])])
      (.dict [("k", .list [.tuple [.int (-10), .int 5]])]) (.dict []) Option.none
      = .error "IndexError: list assignment index out of range" from by
    simp [mergePhase, dict_replace, drFold, drList, dictHasKey, dictGet,
      pyLtLen, pyAsNum, pyListAssign, pyListIndexInt]
    norm_num [pyLtLen, pyAsNum, pyListAssign, pyListIndexInt]]
  simp

/-- **C7 (amended).**  `create`, `read` and `delete` run all raising code
inside `try`/`except` (they are modelled total), and `update` raises
nothing *provided its merge phase never raises*: whenever `dict_replace`,
`dict_pop` and the caller's callback succeed on every successfully read
document, `update` returns a success flag plus result or message and never
propagates an exception.  (The counterexample shows the proviso is needed:
a malformed positional overlay raises out of `update`.) -/
theorem C7_amended
    (projectId localId collection document : String)
    (rd : Nat → Bool × PyValue × PyValue)
    (cm : Nat → PyValue → Except String (Nat × PyValue))
    (replace delete : PyValue)
    (callback : Option (PyValue → Except String PyValue))
    (hmerge : ∀ n d t, rd n = (true, d, t) →
      ∃ m, mergePhase d replace delete callback = .ok m) :
    ∀ msg, (update projectId localId rd cm replace delete callback
      collection document).outcome ≠ .raised msg := by
  suffices h : ∀ (fuel k : Nat) (backoff : Rat) (sleeps0 : List Rat) (r c : Nat) (msg : String),
      (updateLoop rd cm replace delete callback
        (if collection = "" then localId else collection)
        (if document = "" then localId else document)
        ("projects/" ++ projectId ++ "/databases/(default)/documents/"
          ++ (if collection = "" then localId else collection) ++ "/"
          ++ (if document = "" then localId else document))
        fuel k backoff sleeps0 r c).outcome ≠ .raised msg by
    intro msg
    simp only [update]
    exact h 64 0 0 [] 0 0 msg
  intro fuel
  induction fuel with
  | zero =>
    intro k backoff sleeps0 r c msg
    simp [updateLoop]
  | succ fuel ih =>
    intro k backoff sleeps0 r c msg
    rw [updateLoop]
    by_cases h60 : (60 : Rat) ≤ stepBackoff (k + 1) backoff
    · rw [if_pos h60]
      simp
    · rw [if_neg h60]
      rcases hrd : rd (k + 1) with ⟨s, ex, ut⟩
      cases s with
      | false => simp
      | true =>
        obtain ⟨m, hm⟩ := hmerge (k + 1) ex ut hrd
        simp only [hm]
        rw [if_pos (by trivial)]
        by_cases hsize : 19990 < dict_size m
        · rw [if_pos hsize]
          simp
        · rw [if_neg hsize]
          rcases hc : commitBlock m ut _ (cm (k + 1)) with ⟨step, n⟩
          cases step with
          | retry => exact ih (k + 1) (stepBackoff (k + 1) backoff) _ _ _ msg
          | finish ok d tm => simp

/-- Closed witness for `C7_amended`. -/
theorem C7_amended_witness :
    (update "p" "uid" readAlwaysOk commitAlwaysPrecond (.dict []) (.dict [])
      Option.none "c" "d").outcome ≠ .raised "boom" := by
  refine C7_amended "p" "uid" "c" "d" readAlwaysOk commitAlwaysPrecond
    (.dict []) (.dict []) Option.none ?_ "boom"
  intro n d t h
  simp only [readAlwaysOk, Prod.mk.injEq] at h
  obtain ⟨-, h2, -⟩ := h
  exact ⟨.dict [], by rw [← h2]; exact mergePhase_id []⟩

/-! ## Claims C1/C5: native values and nested-list occurrence -/

/-- Keys of an association list are pairwise distinct (every reachable
Python dict satisfies this). -/
def keysNodup : List (String × PyValue) → Bool
  | [] => true
  | (k, _) :: rest => !(rest.any (fun p => p.1 == k)) && keysNodup rest

mutual

/-- The value is a *native value* in the sense of the spec's data model:
built from `None`, booleans, integers, floats, text, byte-sequences (here:
with valid UTF-8 content, see the `PyValue.bytes` convention), `GeoPoint`
instances (whose stored fields are always clamped by the constructor),
`TimeStamp`, `Reference`, sequences and string-keyed mappings without
duplicate keys.  Tuples, sets and the other wire-unsupported shapes are
excluded. -/
def isNative : PyValue → Bool
  | .none => true
  | .bool _ => true
  | .int _ => true
  | .float _ => true
  | .str _ => true
  | .bytes _ => true
  | .timeStamp _ => true
  | .reference _ => true
  | .geoPoint la lo =>
    decide (-90 ≤ la) && decide (la ≤ 90) && decide (-180 ≤ lo) && decide (lo ≤ 180)
  | .list xs => isNativeList xs
  | .dict ps => keysNodup ps && isNativePairs ps
  | .tuple _ => false
  | .other _ => false

def isNativeList : List PyValue → Bool
  | [] => true
  | x :: rest => isNative x && isNativeList rest

def isNativePairs : List (String × PyValue) → Bool
  | [] => true
  | (_, v) :: rest => isNative v && isNativePairs rest

end

mutual

/-- Does the value contain, anywhere, a sequence one of whose elements is
itself a sequence? -/
def containsNestedList : PyValue → Bool
  | .list xs => xs.any PyValue.isList || cnlList xs
  | .dict ps => cnlPairs ps
  | .tuple xs => cnlList xs
  | _ => false

def cnlList : List PyValue → Bool
  | [] => false
  | x :: rest => containsNestedList x || cnlList rest

def cnlPairs : List (String × PyValue) → Bool
  | [] => false
  | (_, v) :: rest => containsNestedList v || cnlPairs rest

end

theorem isNativeList_iff (xs : List PyValue) :
    isNativeList xs = true ↔ ∀ x ∈ xs, isNative x = true := by
  induction xs with
  | nil => simp [isNativeList]
  | cons x rest ih => simp [isNativeList, ih]

theorem isNativePairs_iff (ps : List (String × PyValue)) :
    isNativePairs ps = true ↔ ∀ p ∈ ps, isNative p.2 = true := by
  induction ps with
  | nil => simp [isNativePairs]
  | cons p rest ih =>
    obtain ⟨k, v⟩ := p
    simp [isNativePairs, ih]

theorem cnlList_eq_false_iff (xs : List PyValue) :
    cnlList xs = false ↔ ∀ x ∈ xs, containsNestedList x = false := by
  induction xs with
  | nil => simp [cnlList]
  | cons x rest ih => simp [cnlList, ih]

theorem cnlPairs_eq_false_iff (ps : List (String × PyValue)) :
    cnlPairs ps = false ↔ ∀ p ∈ ps, containsNestedList p.2 = false := by
  induction ps with
  | nil => simp [cnlPairs]
  | cons p rest ih =>
    obtain ⟨k, v⟩ := p
    simp [cnlPairs, ih]

/-- The wire tags the decoder knows. -/
def tagNames : List String :=
  ["nullValue", "stringValue", "booleanValue", "integerValue", "doubleValue",
   "bytesValue", "timestampValue", "referenceValue", "mapValue", "arrayValue",
   "geoPointValue"]

/-- A wire node as produced by the encoder's `map`: a dict with exactly one
key, which is a known tag. -/
def isNodeShape : PyValue → Bool
  | .dict [(tag, _)] => tagNames.contains tag
  | _ => false

theorem isNodeShape_elim {w : PyValue} (h : isNodeShape w = true) :
    ∃ tag payload, w = .dict [(tag, payload)] ∧ tagNames.contains tag = true := by
  match w, h with
  | .dict [(tag, payload)], h => exact ⟨tag, payload, rfl, h⟩

theorem tag_ne_special {tag : String} (h : tagNames.contains tag = true) :
    tag ≠ "fields" ∧ tag ≠ "values" := by
  have hmem : tag ∈ tagNames := by
    rw [show tagNames.contains tag = List.elem tag tagNames from rfl] at h
    exact List.elem_iff.mp h
  simp only [tagNames, List.mem_cons, List.not_mem_nil, or_false] at hmem
  rcases hmem with h' | h' | h' | h' | h' | h' | h' | h' | h' | h' | h' <;> subst h' <;>
    exact ⟨by decide, by decide⟩

/-- Decode relation between a native value and its wire node. -/
def NodeRel (x w : PyValue) : Prop :=
  isNodeShape w = true ∧ dict_from_firestore w = .ok x

/-- Decode relation between a native field pair and its encoded pair. -/
def PairRel (p q : String × PyValue) : Prop :=
  q.1 = p.1 ∧ NodeRel p.2 q.2

theorem dffItems_nodes : ∀ {xs ws : List PyValue},
    List.Forall₂ NodeRel xs ws → dffItems ws = .ok xs := by
  intro xs ws h
  induction h with
  | nil => simp [dffItems]
  | cons hrel hrest ih => simp only [dffItems, hrel.2, ih]

/-- Decoding a fields-dict whose every value is an encoder-produced node
never fires a tag branch: each key falls through to
`new_dict[key] = dict_from_firestore(value)`. -/
theorem dffPlan_node (k0 tag : String) (payload : PyValue)
    (htf : tag ≠ "fields") (htv : tag ≠ "values") :
    dffPlan k0 (.dict [(tag, payload)]) = .fall := by
  unfold dffPlan
  simp [PyValue.isDict, PyValue.isList, htf, htv]

theorem dffFields_step (k0 tag : String) (payload : PyValue)
    (htag : tagNames.contains tag = true) (v0 : PyValue)
    (hdec : dict_from_firestore (.dict [(tag, payload)]) = .ok v0)
    (rest acc : List (String × PyValue)) :
    dffFields ((k0, .dict [(tag, payload)]) :: rest) acc
      = dffFields rest (acc ++ [(k0, v0)]) := by
  obtain ⟨htf, htv⟩ := tag_ne_special htag
  have hplan := dffPlan_node k0 tag payload htf htv
  simp only [dffFields]
  split <;> simp_all

theorem dffFields_nodes : ∀ {ps ws : List (String × PyValue)},
    List.Forall₂ PairRel ps ws → ∀ acc, dffFields ws acc = .ok (.dict (acc ++ ps)) := by
  intro ps ws h
  induction h with
  | nil => intro acc; simp [dffFields]
  | cons hrel hrest ih =>
    rename_i p q ps' ws'
    intro acc
    obtain ⟨k0, v0⟩ := p
    obtain ⟨k1, w1⟩ := q
    obtain ⟨hk, hshape, hdec⟩ := hrel
    obtain ⟨tag, payload, hw, htag⟩ := isNodeShape_elim hshape
    have hk' : k1 = k0 := hk
    subst hk'
    subst hw
    rw [dffFields_step k1 tag payload htag v0 hdec ws' acc]
    rw [ih (acc ++ [(k1, v0)])]
    simp

/-! ## C1: codec round trip -/

theorem fsElems_round : ∀ (xs : List PyValue),
    (∀ x ∈ xs, ∀ ref, ∃ w, fsMapVal ref x true = .ok w ∧ NodeRel x w) →
    ∀ i, ∃ ws, fsElems xs true i = .ok ws ∧ List.Forall₂ NodeRel xs ws := by
  intro xs
  induction xs with
  | nil => exact fun _ _ => ⟨[], rfl, List.Forall₂.nil⟩
  | cons x rest ih =>
    intro H i
    obtain ⟨w, hw, hrel⟩ := H x (by simp) ("List Index [" ++ intToString i ++ "] ")
    obtain ⟨ws, hws, hrels⟩ := ih (fun y hy ref => H y (by simp [hy]) ref) (i + 1)
    exact ⟨w :: ws, by simp [fsElems, hw, hws], List.Forall₂.cons hrel hrels⟩

theorem fsFields_round : ∀ (ps : List (String × PyValue)),
    (∀ p ∈ ps, ∀ ref, ∃ w, fsMapVal ref p.2 false = .ok w ∧ NodeRel p.2 w) →
    ∃ ws, fsFields ps false = .ok ws ∧ List.Forall₂ PairRel ps ws := by
  intro ps
  induction ps with
  | nil => exact fun _ => ⟨[], rfl, List.Forall₂.nil⟩
  | cons p rest ih =>
    intro H
    obtain ⟨k, v⟩ := p
    obtain ⟨w, hw, hrel⟩ := H (k, v) (by simp) ("Key \"" ++ k ++ "\" ")
    obtain ⟨ws, hws, hrels⟩ := ih (fun q hq ref => H q (by simp [hq]) ref)
    exact ⟨(k, w) :: ws, by simp [fsFields, hw, hws], List.Forall₂.cons ⟨rfl, hrel⟩ hrels⟩

/-- Core of the round trip: on a native, nested-list-free value the encoder's
`map` helper produces a wire node that the decoder maps back to the value. -/
theorem codecRound : ∀ v : PyValue, isNative v = true →
    containsNestedList v = false →
    ∀ (ref : String) (pl : Bool), (pl = true → v.isList = false) →
    ∃ w, fsMapVal ref v pl = .ok w ∧ NodeRel v w := by
  intro v
  induction v using PyValue.inductionNested with
  | hnone =>
    intro _ _ ref pl _
    exact ⟨_, rfl, rfl,
      by simp [dict_from_firestore, dffFields, dffPlan, dffScalar,
               PyValue.isDict, PyValue.isList]⟩
  | hbool b =>
    intro _ _ ref pl _
    exact ⟨_, rfl, rfl,
      by simp [dict_from_firestore, dffFields, dffPlan, dffScalar,
               PyValue.isDict, PyValue.isList, pyTruthy]⟩
  | hint n =>
    intro _ _ ref pl _
    exact ⟨_, rfl, rfl,
      by simp [dict_from_firestore, dffFields, dffPlan, dffScalar,
               PyValue.isDict, PyValue.isList, pyToInt, pyIntOfString_intToString]⟩
  | hfloat q =>
    intro _ _ ref pl _
    exact ⟨_, rfl, rfl,
      by simp [dict_from_firestore, dffFields, dffPlan, dffScalar,
               PyValue.isDict, PyValue.isList, pyToFloat]⟩
  | hstr s =>
    intro _ _ ref pl _
    exact ⟨_, rfl, rfl,
      by simp [dict_from_firestore, dffFields, dffPlan, dffScalar,
               PyValue.isDict, PyValue.isList, pyStrScalar]⟩
  | hbytes s =>
    intro _ _ ref pl _
    exact ⟨_, rfl, rfl,
      by simp [dict_from_firestore, dffFields, dffPlan, dffScalar,
               PyValue.isDict, PyValue.isList, pyStrEncode]⟩
  | hgeo la lo =>
    intro hnat _ ref pl _
    simp only [isNative, Bool.and_eq_true, decide_eq_true_eq] at hnat
    obtain ⟨⟨⟨h1, h2⟩, h3⟩, h4⟩ := hnat
    refine ⟨_, rfl, rfl, ?_⟩
    simp [dict_from_firestore, dffFields, dffPlan, PyValue.isDict,
          PyValue.isList, geoPointInit, pyAsNum]
    constructor
    · rw [max_eq_left h1]
      exact min_eq_left h2
    · rw [max_eq_left h3]
      exact min_eq_left h4
  | hts s =>
    intro _ _ ref pl _
    exact ⟨_, rfl, rfl,
      by simp [dict_from_firestore, dffFields, dffPlan, dffScalar,
               PyValue.isDict, PyValue.isList, pyStrScalar, timeStampInit]⟩
  | href s =>
    intro _ _ ref pl _
    exact ⟨_, rfl, rfl,
      by simp [dict_from_firestore, dffFields, dffPlan, dffScalar,
               PyValue.isDict, PyValue.isList, pyStrScalar]⟩
  | hlist xs ih =>
    intro hnat hcnl ref pl hpl
    have hplf : pl = false := by
      cases pl
      · rfl
      · simpa [PyValue.isList] using hpl rfl
    subst hplf
    have hnat' := (isNativeList_iff xs).mp (by simpa [isNative] using hnat)
    have hany : xs.any PyValue.isList = false ∧ cnlList xs = false := by
      simpa [containsNestedList, Bool.or_eq_false_iff] using hcnl
    have hcnl' := (cnlList_eq_false_iff xs).mp hany.2
    have hnolist : ∀ x ∈ xs, x.isList = false := by
      intro x hx
      have h := hany.1
      simp only [List.any_eq_false] at h
      simpa using h x hx
    obtain ⟨ws, hws, hrels⟩ := fsElems_round xs
      (fun x hx ref' =>
        ih x hx (hnat' x hx) (hcnl' x hx) ref' true (fun _ => hnolist x hx)) 0
    refine ⟨.dict [("arrayValue", .dict [("values", .list ws)])], ?_, rfl, ?_⟩
    · simp [fsMapVal, hws]
    · simp [dict_from_firestore, dffFields, dffPlan, PyValue.isDict,
            PyValue.isList, dffItems_nodes hrels]
  | hdict ps ih =>
    intro hnat hcnl ref pl _
    have hnat' := (isNativePairs_iff ps).mp (by
      simp only [isNative, Bool.and_eq_true] at hnat
      exact hnat.2)
    have hcnl' := (cnlPairs_eq_false_iff ps).mp (by
      simpa [containsNestedList] using hcnl)
    obtain ⟨ws, hws, hrels⟩ := fsFields_round ps
      (fun p hp ref' => ih p hp (hnat' p hp) (hcnl' p hp) ref' false (by simp))
    refine ⟨.dict [("mapValue", .dict [("fields", .dict ws)])], ?_, rfl, ?_⟩
    · simp [fsMapVal, hws]
    · have hdec := dffFields_nodes hrels []
      simp only [List.nil_append] at hdec
      simp [dict_from_firestore, dffFields, dffPlan, PyValue.isDict,
            PyValue.isList, hdec]
  | htuple xs _ =>
    intro hnat
    simp [isNative] at hnat
  | hother t =>
    intro hnat
    simp [isNative] at hnat

/-- C1: Codec round trip.  For every document — a string-keyed mapping whose
values are native values (under the `PyValue.bytes` valid-UTF-8
representation convention) with no sequence directly nested inside a
sequence — decoding the encoding returns the document unchanged:
`dict_from_firestore (dict_to_firestore v False) = v`.  The proof needs no
exclusion for user keys named like wire tags: with the decoder's exact-shape
`is_dict_value` guards the round trip holds for those keys as well, so this
is slightly stronger than the claim. -/
theorem C1_codec_roundtrip (ps : List (String × PyValue))
    (hnat : isNative (.dict ps) = true)
    (hcnl : containsNestedList (.dict ps) = false) :
    (dict_to_firestore (.dict ps) false).bind dict_from_firestore
      = .ok (.dict ps) := by
  have hnat' := (isNativePairs_iff ps).mp (by
    simp only [isNative, Bool.and_eq_true] at hnat
    exact hnat.2)
  have hcnl' := (cnlPairs_eq_false_iff ps).mp (by
    simpa [containsNestedList] using hcnl)
  obtain ⟨ws, hws, hrels⟩ := fsFields_round ps
    (fun p hp ref' => codecRound p.2 (hnat' p hp) (hcnl' p hp) ref' false (by simp))
  have hdec := dffFields_nodes hrels []
  simp only [List.nil_append] at hdec
  simp [dict_to_firestore, hws, Except.bind, dict_from_firestore, hdec]

theorem C1_witness :
    isNative (.dict [("a", .int 5), ("b", .list [.str "x", .geoPoint 1 2]),
      ("mapValue", .dict [("d", .bool true), ("e", .bytes "hi")])]) = true
    ∧ containsNestedList (.dict [("a", .int 5), ("b", .list [.str "x", .geoPoint 1 2]),
      ("mapValue", .dict [("d", .bool true), ("e", .bytes "hi")])]) = false
    ∧ (dict_to_firestore (.dict [("a", .int 5), ("b", .list [.str "x", .geoPoint 1 2]),
      ("mapValue", .dict [("d", .bool true), ("e", .bytes "hi")])]) false).bind
        dict_from_firestore
      = .ok (.dict [("a", .int 5), ("b", .list [.str "x", .geoPoint 1 2]),
      ("mapValue", .dict [("d", .bool true), ("e", .bytes "hi")])]) :=
  ⟨by decide, by decide, C1_codec_roundtrip _ (by decide) (by decide)⟩

/-! ## C5: nested-array rejection -/

theorem fsMapVal_isList (ref : String) (x : PyValue) (h : x.isList = true) :
    fsMapVal ref x true = .error nestedListMsg := by
  cases x <;> try rfl
  all_goals simp [PyValue.isList] at h

theorem fsElems_fails : ∀ (xs : List PyValue),
    (∀ x ∈ xs, containsNestedList x = false → x.isList = false →
      ∀ ref, ∃ w, fsMapVal ref x true = .ok w) →
    (∀ x ∈ xs, containsNestedList x = true →
      ∀ ref, fsMapVal ref x true = .error nestedListMsg) →
    (xs.any PyValue.isList || cnlList xs) = true →
    ∀ i, fsElems xs true i = .error nestedListMsg := by
  intro xs
  induction xs with
  | nil =>
    intro _ _ hany
    simp [cnlList] at hany
  | cons x rest ih =>
    intro Hok Hbad hany i
    by_cases hx1 : x.isList = true
    · simp [fsElems, fsMapVal_isList _ x hx1]
    · by_cases hx2 : containsNestedList x = true
      · simp [fsElems, Hbad x (by simp) hx2]
      · obtain ⟨w, hw⟩ := Hok x (by simp) (by simpa using hx2) (by simpa using hx1)
          ("List Index [" ++ intToString i ++ "] ")
        have hany' : (rest.any PyValue.isList || cnlList rest) = true := by
          simp only [List.any_cons, cnlList, Bool.or_eq_true] at hany ⊢
          rcases hany with (h | h) | (h | h)
          · exact absurd h hx1
          · exact Or.inl h
          · exact absurd h hx2
          · exact Or.inr h
        simp only [fsElems, hw]
        rw [ih (fun y hy => Hok y (by simp [hy])) (fun y hy => Hbad y (by simp [hy]))
          hany' (i + 1)]

theorem fsFields_fails : ∀ (ps : List (String × PyValue)),
    (∀ p ∈ ps, containsNestedList p.2 = false →
      ∀ ref, ∃ w, fsMapVal ref p.2 false = .ok w) →
    (∀ p ∈ ps, containsNestedList p.2 = true →
      ∀ ref, fsMapVal ref p.2 false = .error nestedListMsg) →
    cnlPairs ps = true →
    fsFields ps false = .error nestedListMsg := by
  intro ps
  induction ps with
  | nil =>
    intro _ _ hany
    simp [cnlPairs] at hany
  | cons p rest ih =>
    intro Hok Hbad hany
    obtain ⟨k, v⟩ := p
    by_cases hv : containsNestedList v = true
    · simp [fsFields, Hbad (k, v) (by simp) hv]
    · obtain ⟨w, hw⟩ := Hok (k, v) (by simp) (by simpa using hv) ("Key \"" ++ k ++ "\" ")
      have hany' : cnlPairs rest = true := by
        simp only [cnlPairs, Bool.or_eq_true] at hany
        rcases hany with h | h
        · exact absurd h hv
        · exact h
      simp only [fsFields, hw]
      rw [ih (fun q hq => Hok q (by simp [hq])) (fun q hq => Hbad q (by simp [hq])) hany']

/-- Encoding any native value that contains a nested sequence fails with the
nested-list assertion message, whatever the reference prefix and flag. -/
theorem encNestedFails : ∀ v : PyValue, isNative v = true →
    containsNestedList v = true →
    ∀ (ref : String) (pl : Bool), fsMapVal ref v pl = .error nestedListMsg := by
  intro v
  induction v using PyValue.inductionNested with
  | hnone =>
    intro _ hc
    simp [containsNestedList] at hc
  | hbool b =>
    intro _ hc
    simp [containsNestedList] at hc
  | hint n =>
    intro _ hc
    simp [containsNestedList] at hc
  | hfloat q =>
    intro _ hc
    simp [containsNestedList] at hc
  | hstr s =>
    intro _ hc
    simp [containsNestedList] at hc
  | hbytes s =>
    intro _ hc
    simp [containsNestedList] at hc
  | hgeo la lo =>
    intro _ hc
    simp [containsNestedList] at hc
  | hts s =>
    intro _ hc
    simp [containsNestedList] at hc
  | href s =>
    intro _ hc
    simp [containsNestedList] at hc
  | hlist xs ih =>
    intro hnat hcnl ref pl
    cases pl with
    | true => rfl
    | false =>
      have hnat' := (isNativeList_iff xs).mp (by simpa [isNative] using hnat)
      have hcnl2 : (xs.any PyValue.isList || cnlList xs) = true := by
        simpa [containsNestedList] using hcnl
      have hfails := fsElems_fails xs
        (fun x hx hcx hlx ref' =>
          (codecRound x (hnat' x hx) hcx ref' true (fun _ => hlx)).imp
            (fun w hw => hw.1))
        (fun x hx hcx ref' => ih x hx (hnat' x hx) hcx ref' true)
        hcnl2 0
      simp [fsMapVal, hfails]
  | hdict ps ih =>
    intro hnat hcnl ref pl
    have hnat' := (isNativePairs_iff ps).mp (by
      simp only [isNative, Bool.and_eq_true] at hnat
      exact hnat.2)
    have hcnl2 : cnlPairs ps = true := by
      simpa [containsNestedList] using hcnl
    have hfails := fsFields_fails ps
      (fun p hp hcp ref' =>
        (codecRound p.2 (hnat' p hp) hcp ref' false (by simp)).imp
          (fun w hw => hw.1))
      (fun p hp hcp ref' => ih p hp (hnat' p hp) hcp ref' false)
      hcnl2
    simp [fsMapVal, hfails]
  | htuple xs _ =>
    intro hnat
    simp [isNative] at hnat
  | hother t =>
    intro hnat
    simp [isNative] at hnat

/-- C5: Nested-array rejection.  Encoding a native document that contains a
sequence one of whose elements is itself a sequence fails with the nested-list
assertion message (never flattening or encoding it); equivalently, the
encoder's `map` on any sequence with the inside-array flag already true fails
with that message immediately. -/
theorem C5_nested_array_rejection :
    (∀ ps, isNative (.dict ps) = true → containsNestedList (.dict ps) = true →
      dict_to_firestore (.dict ps) false = .error nestedListMsg)
    ∧ ∀ (ref : String) (xs : List PyValue),
      fsMapVal ref (.list xs) true = .error nestedListMsg := by
  constructor
  · intro ps hnat hcnl
    have hnat' := (isNativePairs_iff ps).mp (by
      simp only [isNative, Bool.and_eq_true] at hnat
      exact hnat.2)
    have hcnl2 : cnlPairs ps = true := by
      simpa [containsNestedList] using hcnl
    have hfails := fsFields_fails ps
      (fun p hp hcp ref' =>
        (codecRound p.2 (hnat' p hp) hcp ref' false (by simp)).imp
          (fun w hw => hw.1))
      (fun p hp hcp ref' => encNestedFails p.2 (hnat' p hp) hcp ref' false)
      hcnl2
    simp [dict_to_firestore, hfails]
  · intro ref xs
    rfl

theorem C5_witness :
    isNative (.dict [("x", .list [.int 1, .list [.int 2]])]) = true
    ∧ containsNestedList (.dict [("x", .list [.int 1, .list [.int 2]])]) = true
    ∧ dict_to_firestore (.dict [("x", .list [.int 1, .list [.int 2]])]) false
      = .error nestedListMsg :=
  ⟨by decide, by decide,
    C5_nested_array_rejection.1 _ (by decide) (by decide)⟩
